import Mathlib

/-!
Verification of the retail-operations data store implemented in
`certainti.py`.  The Python source drives a PostgreSQL database: it creates
a schema (`create_tables`, `create_indexes`, `create_views`), installs
triggers (`prevent_out_of_stock_orders`, `log_deleted_employee`), runs a
recursive hierarchy query (`display_employee_hierarchy`), a crosstab pivot
(`display_monthly_sales_pivot_crosstab`) and stored procedures
(`sp_AddProductStock`, `sp_DeleteCustomer`, `sp_UpdateCustomer`,
`sp_GenerateSalesReport`).  This file embeds those tables and operations as
pure functions over an explicit database state and proves properties of the
embedded operations.

Modelling conventions: `DECIMAL(10,2)` columns are modelled as exact `Int`
values (every amount appearing in the source is integral); nullable SQL
columns are modelled with `Option`; SQL `SERIAL` and `CURRENT_TIMESTAMP`
are modelled by explicit counters in the database state; the per-statement
rollback of PostgreSQL is modelled by operations returning `Except`, where
an `Except.error` outcome means the statement aborted and the visible state
is the unchanged pre-state (made explicit by the `...State` wrappers).
-/

namespace Certainti

/-- Row of the `stores` table (`create_tables`): `store_id INT PRIMARY KEY`,
`name`, `location`, and a plain `manager_id INT` with no foreign key. -/
structure Store where
  store_id : Nat
  name : String
  location : String
  manager_id : Option Nat
deriving DecidableEq

/-- Row of the `employees` table: `employee_id INT PRIMARY KEY`, `name`,
`role`, `store_id REFERENCES stores ON DELETE SET NULL`,
`salary DECIMAL CHECK (salary >= 0)`, and the self-referencing
`manager_id INT REFERENCES employees(employee_id) ON DELETE SET NULL`. -/
structure Employee where
  employee_id : Nat
  name : String
  role : String
  store_id : Option Nat
  salary : Int
  manager_id : Option Nat
deriving DecidableEq

/-- Row of the `employee_audit` table created by `create_triggers`:
`audit_id SERIAL PRIMARY KEY` plus a copy of the employee columns and
`deleted_at TIMESTAMP DEFAULT CURRENT_TIMESTAMP`. -/
structure EmployeeAuditRow where
  audit_id : Nat
  employee_id : Nat
  name : String
  role : String
  store_id : Option Nat
  salary : Int
  manager_id : Option Nat
  deleted_at : Nat
deriving DecidableEq

/-- Row of the `customers` table: `customer_id INT PRIMARY KEY`, `name`,
`email UNIQUE`, `phone UNIQUE`, `city`. -/
structure Customer where
  customer_id : Nat
  name : String
  email : String
  phone : String
  city : String
deriving DecidableEq

/-- Value of a SQL `DATE` column, as extracted by `EXTRACT(YEAR ...)` and
`EXTRACT(MONTH ...)` in the report queries. -/
structure OrderDate where
  year : Nat
  month : Nat
  day : Nat
deriving DecidableEq

/-- Row of the `orders` table: `order_id INT PRIMARY KEY`,
`customer_id REFERENCES customers ON DELETE CASCADE`,
`store_id REFERENCES stores ON DELETE SET NULL`, `order_date`,
`total_amount`.  The field `order_status` is NOT a column of the schema
built by `create_tables`; it is referenced only by the
`demonstrate_stored_procedures` variant of `sp_DeleteCustomer`
(`WHERE customer_id = p AND order_status != completed`).  It is carried
here so that status-based conditions are expressible; the menu-wired
`sp_DeleteCustomer` of `create_stored_procedures` ignores it. -/
structure Order where
  order_id : Nat
  customer_id : Option Nat
  store_id : Option Nat
  order_date : OrderDate
  total_amount : Int
  order_status : String
deriving DecidableEq

/-- Row of the `products` table: `product_id INT PRIMARY KEY`, `name`,
`category`, `price DECIMAL CHECK (price >= 0)`,
`stock INT CHECK (stock >= 0)`, `supplier_id REFERENCES suppliers`. -/
structure Product where
  product_id : Nat
  name : String
  category : String
  price : Int
  stock : Int
  supplier_id : Option Nat
deriving DecidableEq

/-- Row of the `order_items` table: `order_item_id INT PRIMARY KEY`,
`order_id REFERENCES orders ON DELETE CASCADE`,
`product_id REFERENCES products ON DELETE CASCADE`,
`quantity INT CHECK (quantity > 0)`, `price DECIMAL CHECK (price >= 0)`. -/
structure OrderItem where
  order_item_id : Nat
  order_id : Option Nat
  product_id : Option Nat
  quantity : Int
  price : Int
deriving DecidableEq

/-- Whole database state: the tables used by the verified operations plus
the `SERIAL` counter of `employee_audit.audit_id` and a logical clock
standing for `CURRENT_TIMESTAMP`. -/
structure DB where
  stores : List Store
  employees : List Employee
  customers : List Customer
  products : List Product
  orders : List Order
  order_items : List OrderItem
  employee_audit : List EmployeeAuditRow
  next_audit_id : Nat
  clock : Nat
deriving DecidableEq

/-- Errors raised by the embedded statements, mirroring the PostgreSQL
error classes the source can hit: the RAISE EXCEPTION of the stock trigger,
CHECK / PRIMARY KEY / FOREIGN KEY / UNIQUE violations, and the RAISE
EXCEPTION of `sp_DeleteCustomer`. -/
inductive DBError where
  | insufficientStock (product_id : Nat)
  | checkViolation (constraint : String)
  | pkViolation (constraint : String)
  | fkViolation (constraint : String)
  | uniqueViolation (constraint : String)
  | conflict (message : String)
deriving DecidableEq

/-- Result of `SELECT stock FROM products WHERE product_id = pid`: `none`
when no row matches (the SQL result is NULL). -/
def lookupStock (db : DB) (pid : Nat) : Option Int :=
  (db.products.find? (fun p => p.product_id == pid)).map Product.stock

/-- Embedding of `UPDATE products SET stock = stock - qty WHERE
product_id = pid`, subject to the table constraint `CHECK (stock >= 0)`:
if any updated row would violate the check the statement errors, otherwise
the matching rows are updated in place. -/
def updateStockMinus (db : DB) (pid : Nat) (qty : Int) : Except DBError DB :=
  if db.products.any (fun p => p.product_id == pid && decide (p.stock - qty < 0)) then
    Except.error (DBError.checkViolation "products_stock_check")
  else
    Except.ok { db with
      products := db.products.map (fun p =>
        if p.product_id = pid then { p with stock := p.stock - qty } else p) }

/-- Embedding of the BEFORE INSERT trigger function
`prevent_out_of_stock_orders` from `create_triggers`: it reads the stock of
the referenced product; if the row is absent (or the reference is NULL) the
SQL comparison `NULL < NEW.quantity` is not true, so no exception is raised
and the subsequent UPDATE matches no row; if the row is present and
`stock < NEW.quantity` the trigger raises, otherwise it decrements the
stock by the requested quantity. -/
def prevent_out_of_stock_orders (db : DB) (new : OrderItem) : Except DBError DB :=
  match new.product_id with
  | none => Except.ok db
  | some pid =>
    match lookupStock db pid with
    | none => Except.ok db
    | some s =>
      if s < new.quantity then Except.error (DBError.insufficientStock pid)
      else updateStockMinus db pid new.quantity

/-- Foreign-key test for `order_items.order_id REFERENCES orders`: a NULL
reference passes, a non-NULL reference must match an order row. -/
def orderFkOk (db : DB) (ref : Option Nat) : Bool :=
  match ref with
  | none => true
  | some oid => db.orders.any (fun o => o.order_id == oid)

/-- Foreign-key test for `order_items.product_id REFERENCES products`. -/
def productFkOk (db : DB) (ref : Option Nat) : Bool :=
  match ref with
  | none => true
  | some pid => db.products.any (fun p => p.product_id == pid)

/-- Embedding of `INSERT INTO order_items VALUES (new)`: the BEFORE INSERT
trigger runs first, then the row constraints are checked in PostgreSQL
order (CHECK constraints, primary key, then the foreign keys in column
declaration order), and finally the row is appended.  An error aborts the
whole statement, trigger effects included. -/
def insertOrderItem (db : DB) (new : OrderItem) : Except DBError DB :=
  match prevent_out_of_stock_orders db new with
  | Except.error e => Except.error e
  | Except.ok db1 =>
    if new.quantity ≤ 0 then
      Except.error (DBError.checkViolation "order_items_quantity_check")
    else if new.price < 0 then
      Except.error (DBError.checkViolation "order_items_price_check")
    else if db1.order_items.any (fun oi => oi.order_item_id == new.order_item_id) then
      Except.error (DBError.pkViolation "order_items_pkey")
    else if orderFkOk db1 new.order_id = false then
      Except.error (DBError.fkViolation "order_items_order_id_fkey")
    else if productFkOk db1 new.product_id = false then
      Except.error (DBError.fkViolation "order_items_product_id_fkey")
    else
      Except.ok { db1 with order_items := db1.order_items ++ [new] }

/-- Visible database state after an attempted order-item insert: on success
the new state, on error the unchanged pre-state (statement rollback). -/
def insertOrderItemState (db : DB) (new : OrderItem) : DB :=
  match insertOrderItem db new with
  | Except.ok db2 => db2
  | Except.error _ => db

/-- Rows agreeing on a key that is nodup across the list are equal. -/
theorem nodup_key_inj {α β : Type} {key : α → β} {l : List α} {a b : α}
    (hnd : (l.map key).Nodup) (ha : a ∈ l) (hb : b ∈ l) (hk : key a = key b) :
    a = b := by
  induction l with
  | nil => cases ha
  | cons y ys ih =>
    rw [List.map_cons, List.nodup_cons] at hnd
    rcases List.mem_cons.mp ha with rfl | ha2
    · rcases List.mem_cons.mp hb with rfl | hb2
      · rfl
      · exact absurd (hk ▸ List.mem_map_of_mem key hb2) hnd.1
    · rcases List.mem_cons.mp hb with rfl | hb2
      · exact absurd (hk ▸ List.mem_map_of_mem key ha2) hnd.1
      · exact ih hnd.2 ha2 hb2

/-- Searching a nodup-keyed list for the key of a member finds the member. -/
theorem nodup_key_find? {α β : Type} [BEq β] [LawfulBEq β] {key : α → β}
    {l : List α} {x : α}
    (hnd : (l.map key).Nodup) (hx : x ∈ l) :
    l.find? (fun a => key a == key x) = some x := by
  induction l with
  | nil => cases hx
  | cons y ys ih =>
    rw [List.map_cons, List.nodup_cons] at hnd
    rcases List.mem_cons.mp hx with rfl | hx2
    · simp [List.find?_cons]
    · have hky : (key y == key x) = false := by
        rw [beq_eq_false_iff_ne]
        intro he
        exact hnd.1 (he ▸ List.mem_map_of_mem key hx2)
      rw [List.find?_cons, hky]
      exact ih hnd.2 hx2

/-- Searching for a key matched by no element finds nothing. -/
theorem key_find?_eq_none {α β : Type} [BEq β] [LawfulBEq β] {key : α → β}
    {l : List α} {k : β} (h : ∀ a ∈ l, key a ≠ k) :
    l.find? (fun a => key a == k) = none := by
  rw [List.find?_eq_none]
  intro a ha
  simpa using h a ha

/-- A key-preserving map commutes with searching by key. -/
theorem find?_map_of_key {α β : Type} [BEq β] [LawfulBEq β] {key : α → β}
    (f : α → α) {l : List α} {k : β} (hf : ∀ a, key (f a) = key a) :
    (l.map f).find? (fun a => key a == k) = (l.find? (fun a => key a == k)).map f := by
  induction l with
  | nil => rfl
  | cons y ys ih =>
    rw [List.map_cons, List.find?_cons, List.find?_cons, hf]
    by_cases h : (key y == k) = true
    · rw [h]; rfl
    · rw [Bool.not_eq_true] at h
      rw [h, ih]

/-- Claim C1: for an attempted order-item creation that references an
existing product, insufficient stock makes the creation fail with the
InsufficientStock error and leave the state unchanged; sufficient stock
(together with the remaining row constraints) commits the order-item row
and decrements the stock of exactly that product by the requested quantity
in one atomic step. -/
theorem stock_guard_atomic (db : DB) (new : OrderItem) (p : Product) (pid : Nat)
    (hnd : (db.products.map Product.product_id).Nodup)
    (hp : p ∈ db.products) (hid : p.product_id = pid) (href : new.product_id = some pid) :
    (p.stock < new.quantity →
        insertOrderItem db new = Except.error (DBError.insufficientStock pid) ∧
        insertOrderItemState db new = db) ∧
    (new.quantity ≤ p.stock → 0 < new.quantity → 0 ≤ new.price →
        (∀ oi ∈ db.order_items, oi.order_item_id ≠ new.order_item_id) →
        orderFkOk db new.order_id = true →
        ∃ db2, insertOrderItem db new = Except.ok db2 ∧
          db2.order_items = db.order_items ++ [new] ∧
          lookupStock db2 pid = some (p.stock - new.quantity) ∧
          (∀ q ∈ db.products, q.product_id ≠ pid → q ∈ db2.products) ∧
          db2.employees = db.employees ∧ db2.customers = db.customers ∧
          db2.orders = db.orders ∧ db2.stores = db.stores ∧
          db2.employee_audit = db.employee_audit) := by
  subst hid
  have hlk : lookupStock db p.product_id = some p.stock := by
    rw [lookupStock, nodup_key_find? hnd hp]
    rfl
  constructor
  · intro hlt
    have htrig : prevent_out_of_stock_orders db new =
        Except.error (DBError.insufficientStock p.product_id) := by
      simp only [prevent_out_of_stock_orders, href, hlk, if_pos hlt]
    have hie : insertOrderItem db new =
        Except.error (DBError.insufficientStock p.product_id) := by
      simp only [insertOrderItem, htrig]
    refine ⟨hie, ?_⟩
    rw [insertOrderItemState.eq_def, hie]
  · intro hge hqpos hppos hpk hfk
    have hchk : db.products.any
        (fun q => q.product_id == p.product_id && decide (q.stock - new.quantity < 0)) = false := by
      rw [List.any_eq_false]
      intro q hq
      simp only [Bool.and_eq_true, beq_iff_eq, decide_eq_true_eq, not_and, not_lt]
      intro hqe
      have : q = p := nodup_key_inj hnd hq hp hqe
      subst this
      omega
    have htrig : prevent_out_of_stock_orders db new = Except.ok
        { db with products := db.products.map (fun q =>
            if q.product_id = p.product_id then
              { q with stock := q.stock - new.quantity } else q) } := by
      simp only [prevent_out_of_stock_orders, href, hlk, if_neg (not_lt.mpr hge),
        updateStockMinus]
      rw [if_neg (by rw [hchk]; simp)]
    have h3 : db.order_items.any
        (fun oi => oi.order_item_id == new.order_item_id) = false := by
      rw [List.any_eq_false]
      intro oi hoi
      simpa using hpk oi hoi
    have h5 : (db.products.map (fun q =>
        if q.product_id = p.product_id then
          { q with stock := q.stock - new.quantity } else q)).any
        (fun q => q.product_id == p.product_id) = true := by
      rw [List.any_eq_true]
      refine ⟨if p.product_id = p.product_id then
        { p with stock := p.stock - new.quantity } else p, List.mem_map_of_mem _ hp, ?_⟩
      simp
    refine ⟨{ db with
        products := db.products.map (fun q =>
          if q.product_id = p.product_id then
            { q with stock := q.stock - new.quantity } else q),
        order_items := db.order_items ++ [new] }, ?_, rfl, ?_, ?_, rfl, rfl, rfl, rfl, rfl⟩
    · simp only [insertOrderItem, htrig]
      split_ifs with c1 c2 c3 c4 c5
      · exact absurd c1 (by omega)
      · exact absurd c2 (by omega)
      · have c3b : db.order_items.any
            (fun oi => oi.order_item_id == new.order_item_id) = true := c3
        rw [h3] at c3b
        simp at c3b
      · have c4b : orderFkOk db new.order_id = false := c4
        rw [hfk] at c4b
        simp at c4b
      · rw [productFkOk.eq_def, href] at c5
        simp only [] at c5
        rw [h5] at c5
        simp at c5
      · rfl
    · have hkeep : ∀ q : Product,
          ((if q.product_id = p.product_id then
            { q with stock := q.stock - new.quantity } else q) : Product).product_id
            = q.product_id := by
        intro q; by_cases h : q.product_id = p.product_id <;> simp [h]
      simp only [lookupStock]
      rw [find?_map_of_key _ hkeep, nodup_key_find? hnd hp]
      simp
    · intro q hq hqne
      refine List.mem_map.mpr ⟨q, hq, ?_⟩
      simp [hqne]

/-- Claim C10: an attempted order-item creation whose product reference
matches no product row raises no InsufficientStock error and leaves the
state (in particular every stock counter) unchanged; when the other row
constraints hold the insert is rejected precisely by the foreign key on the
product reference. -/
theorem dangling_product_ref (db : DB) (new : OrderItem) (pid : Nat)
    (href : new.product_id = some pid)
    (habs : ∀ p ∈ db.products, p.product_id ≠ pid) :
    (∀ e, insertOrderItem db new = Except.error e →
        ∀ k, e ≠ DBError.insufficientStock k) ∧
    insertOrderItemState db new = db ∧
    (0 < new.quantity → 0 ≤ new.price →
      (∀ oi ∈ db.order_items, oi.order_item_id ≠ new.order_item_id) →
      orderFkOk db new.order_id = true →
      insertOrderItem db new = Except.error
        (DBError.fkViolation "order_items_product_id_fkey")) := by
  have hlk : lookupStock db pid = none := by
    rw [lookupStock, key_find?_eq_none habs]
    rfl
  have htrig : prevent_out_of_stock_orders db new = Except.ok db := by
    simp only [prevent_out_of_stock_orders, href, hlk]
  have hpfk : productFkOk db new.product_id = false := by
    rw [productFkOk.eq_def, href, List.any_eq_false]
    intro q hq
    simpa using habs q hq
  have hins : ∀ e, insertOrderItem db new = Except.error e →
      (∃ c, e = DBError.checkViolation c) ∨ (∃ c, e = DBError.pkViolation c) ∨
      (∃ c, e = DBError.fkViolation c) := by
    intro e he
    simp only [insertOrderItem, htrig] at he
    split_ifs at he <;>
      first
      | exact Or.inl ⟨_, ((Except.error.injEq _ _).mp he).symm⟩
      | exact Or.inr (Or.inl ⟨_, ((Except.error.injEq _ _).mp he).symm⟩)
      | exact Or.inr (Or.inr ⟨_, ((Except.error.injEq _ _).mp he).symm⟩)
      | cases he
  have herr : ∃ e, insertOrderItem db new = Except.error e := by
    simp only [insertOrderItem, htrig]
    split_ifs <;>
      first
      | exact ⟨_, rfl⟩
      | exact absurd hpfk (by simp_all)
  refine ⟨?_, ?_, ?_⟩
  · intro e he k
    rcases hins e he with ⟨c, rfl⟩ | ⟨c, rfl⟩ | ⟨c, rfl⟩ <;> intro h <;> cases h
  · obtain ⟨e, he⟩ := herr
    simp only [insertOrderItemState, he]
  · intro hq hpr hpk hfk
    have h3 : db.order_items.any
        (fun oi => oi.order_item_id == new.order_item_id) = false := by
      rw [List.any_eq_false]
      intro oi hoi
      simpa using hpk oi hoi
    have h1 : ¬ new.quantity ≤ 0 := by omega
    have h2 : ¬ new.price < 0 := by omega
    simp only [insertOrderItem, htrig, if_neg h1, if_neg h2]
    rw [if_neg (by simp [h3]), if_neg (by simp [hfk]), if_pos hpfk]

/-- Example database for the stock-guard witnesses: one product with
stock 10 (the example of the specification) and one order to attach
order items to. -/
def exStockDB : DB :=
  { stores := [], employees := [], customers := [],
    products := [⟨1, "Premium Rice", "Groceries", 90, 10, some 1⟩],
    orders := [⟨1, some 1, some 1, ⟨2023, 4, 1⟩, 450, "completed"⟩],
    order_items := [], employee_audit := [], next_audit_id := 1, clock := 0 }

/-- Candidate order item requesting quantity 15 of product 1. -/
def exStockItem : OrderItem := ⟨1, some 1, some 1, 15, 90⟩

/-- Witness for `stock_guard_atomic`: with stock 10 and requested
quantity 15 the creation fails with InsufficientStock and the state is
unchanged (stock remains 10). -/
theorem stock_guard_atomic_witness :
    insertOrderItem exStockDB exStockItem =
      Except.error (DBError.insufficientStock 1) ∧
    insertOrderItemState exStockDB exStockItem = exStockDB :=
  (stock_guard_atomic exStockDB exStockItem
    ⟨1, "Premium Rice", "Groceries", 90, 10, some 1⟩ 1
    (by decide) (by decide) rfl rfl).1 (by decide)

/-- Candidate order item referencing the nonexistent product 99. -/
def exDanglingItem : OrderItem := ⟨2, some 1, some 99, 5, 10⟩

/-- Witness for `dangling_product_ref`: inserting an order item for the
nonexistent product 99 is rejected by the product foreign key, not by the
stock guard, and the state is unchanged. -/
theorem dangling_product_ref_witness :
    insertOrderItem exStockDB exDanglingItem =
      Except.error (DBError.fkViolation "order_items_product_id_fkey") ∧
    insertOrderItemState exStockDB exDanglingItem = exStockDB := by
  have h := dangling_product_ref exStockDB exDanglingItem 99 rfl (by decide)
  exact ⟨h.2.2 (by decide) (by decide) (by decide) (by decide), h.2.1⟩

/-- Embedding of the BEFORE DELETE trigger function `log_deleted_employee`
from `create_triggers`: it inserts a copy of the OLD employee row into
`employee_audit`, with the next SERIAL audit id and the current timestamp,
and returns OLD so the delete proceeds. -/
def log_deleted_employee (db : DB) (old : Employee) : DB :=
  { db with
    employee_audit := db.employee_audit ++
      [{ audit_id := db.next_audit_id, employee_id := old.employee_id,
         name := old.name, role := old.role, store_id := old.store_id,
         salary := old.salary, manager_id := old.manager_id,
         deleted_at := db.clock }],
    next_audit_id := db.next_audit_id + 1 }

/-- Embedding of `DELETE FROM employees WHERE employee_id = eid` with the
`log_employee_deletion` trigger installed: the BEFORE DELETE trigger fires
once per deleted row, the matching rows are removed, and the
self-referencing foreign key `employees.manager_id ... ON DELETE SET NULL`
clears the manager reference of every remaining employee that pointed at a
deleted row. -/
def deleteEmployee (db : DB) (eid : Nat) : DB :=
  let victims := db.employees.filter (fun e => e.employee_id == eid)
  let db1 := victims.foldl log_deleted_employee db
  { db1 with
    employees := (db1.employees.filter (fun e => e.employee_id != eid)).map
      (fun e => if e.manager_id = some eid then { e with manager_id := none } else e) }

/-- Filtering a nodup-keyed list for the key of a member yields exactly
that member. -/
theorem nodup_key_filter {α β : Type} [BEq β] [LawfulBEq β] {key : α → β}
    {l : List α} {x : α} (hnd : (l.map key).Nodup) (hx : x ∈ l) :
    l.filter (fun a => key a == key x) = [x] := by
  induction l with
  | nil => cases hx
  | cons y ys ih =>
    rw [List.map_cons, List.nodup_cons] at hnd
    rcases List.mem_cons.mp hx with rfl | hx2
    · rw [List.filter_cons]
      simp only [beq_self_eq_true, if_true]
      have hnil : ys.filter (fun a => key a == key x) = [] := by
        rw [List.filter_eq_nil_iff]
        intro a ha
        simp only [beq_iff_eq]
        intro hk
        exact hnd.1 (hk ▸ List.mem_map_of_mem key ha)
      rw [hnil]
    · have hky : (key y == key x) = false := by
        rw [beq_eq_false_iff_ne]
        intro he
        exact hnd.1 (he ▸ List.mem_map_of_mem key hx2)
      rw [List.filter_cons, hky]
      exact ih hnd.2 hx2

/-- Claim C2: deleting an employee appends exactly one audit record whose
fields are the pre-delete values of that employee, the deletion itself is
never blocked by the recorder (the row is always removed), no duplicate
audit entry is produced (the audit log grows by exactly one row), and the
employee is absent from subsequent employee reads. -/
theorem employee_delete_audited (db : DB) (E : Employee)
    (hnd : (db.employees.map Employee.employee_id).Nodup) (hE : E ∈ db.employees) :
    (deleteEmployee db E.employee_id).employee_audit =
      db.employee_audit ++
        [{ audit_id := db.next_audit_id, employee_id := E.employee_id,
           name := E.name, role := E.role, store_id := E.store_id,
           salary := E.salary, manager_id := E.manager_id,
           deleted_at := db.clock }] ∧
    (deleteEmployee db E.employee_id).employee_audit.length =
      db.employee_audit.length + 1 ∧
    (∀ e ∈ (deleteEmployee db E.employee_id).employees,
      e.employee_id ≠ E.employee_id) := by
  have hv : db.employees.filter (fun e => e.employee_id == E.employee_id) = [E] :=
    nodup_key_filter hnd hE
  refine ⟨?_, ?_, ?_⟩
  · simp only [deleteEmployee, hv, List.foldl_cons, List.foldl_nil, log_deleted_employee]
  · simp only [deleteEmployee, hv, List.foldl_cons, List.foldl_nil, log_deleted_employee]
    simp
  · intro e he
    simp only [deleteEmployee, hv, List.foldl_cons, List.foldl_nil,
      log_deleted_employee] at he
    obtain ⟨e1, he1, heq⟩ := List.mem_map.mp he
    have hid : e.employee_id = e1.employee_id := by
      subst heq
      by_cases h : e1.manager_id = some E.employee_id <;> simp [h]
    have hne := List.of_mem_filter he1
    rw [hid]
    simpa using hne

/-- Example database for the audit witness: a manager and a subordinate. -/
def exAuditDB : DB :=
  { stores := [], customers := [], products := [], orders := [],
    order_items := [],
    employees := [⟨201, "Anil Sharma", "Manager", some 1, 80000, none⟩,
                  ⟨206, "Suman Reddy", "Cashier", some 1, 38000, some 201⟩],
    employee_audit := [], next_audit_id := 1, clock := 7 }

/-- Witness for `employee_delete_audited`: deleting employee 201 of
`exAuditDB` appends exactly one audit row carrying its pre-delete values. -/
theorem employee_delete_audited_witness :
    (deleteEmployee exAuditDB 201).employee_audit =
      [{ audit_id := 1, employee_id := 201, name := "Anil Sharma",
         role := "Manager", store_id := some 1, salary := 80000,
         manager_id := none, deleted_at := 7 }] ∧
    (deleteEmployee exAuditDB 201).employee_audit.length = 1 := by
  have h := employee_delete_audited exAuditDB
    ⟨201, "Anil Sharma", "Manager", some 1, 80000, none⟩ (by decide) (by decide)
  exact ⟨h.1, h.2.1⟩

/-- Rows fixed by a function are left unchanged by mapping it. -/
theorem map_eq_self_of {α : Type} {f : α → α} {l : List α}
    (h : ∀ x ∈ l, f x = x) : l.map f = l := by
  induction l with
  | nil => rfl
  | cons y ys ih =>
    rw [List.map_cons, h y (List.mem_cons_self y ys),
      ih (fun x hx => h x (List.mem_cons_of_mem y hx))]

/-- Embedding of the stored procedure `sp_AddProductStock` (the two source
copies, in `create_stored_procedures` and `demonstrate_stored_procedures`,
have identical bodies): `UPDATE products SET stock = stock + p_quantity
WHERE product_id = p_product_id`, subject to `CHECK (stock >= 0)`.  The
procedure performs no validation of the quantity at all. -/
def sp_AddProductStock (db : DB) (pid : Nat) (qty : Int) : Except DBError DB :=
  if db.products.any (fun p => p.product_id == pid && decide (p.stock + qty < 0)) then
    Except.error (DBError.checkViolation "products_stock_check")
  else
    Except.ok { db with products := db.products.map (fun p =>
      if p.product_id = pid then { p with stock := p.stock + qty } else p) }

/-- Visible state after `sp_AddProductStock` (rollback on error). -/
def sp_AddProductStockState (db : DB) (pid : Nat) (qty : Int) : DB :=
  match sp_AddProductStock db pid qty with
  | Except.ok db2 => db2
  | Except.error _ => db

/-- Example database for the stored-procedure theorems: one product with
stock 10. -/
def exAddDB : DB :=
  { stores := [], employees := [], customers := [],
    products := [⟨1, "Premium Rice", "Groceries", 90, 10, some 1⟩],
    orders := [], order_items := [], employee_audit := [],
    next_audit_id := 1, clock := 0 }

/-- Counterexample to claim C5: `sp_AddProductStock` has no positivity
validation.  Called with quantity -5 (which is not greater than 0) on
product 1 with stock 10 it does not fail with a ValidationError: it
succeeds and moves the stock to 5. -/
theorem sp_AddProductStock_no_validation :
    sp_AddProductStock exAddDB 1 (-5) =
      Except.ok { exAddDB with
        products := [⟨1, "Premium Rice", "Groceries", 90, 5, some 1⟩] } ∧
    lookupStock (sp_AddProductStockState exAddDB 1 (-5)) 1 = some 5 := by
  constructor
  · rfl
  · rfl

/-- Claim C5 (amended): `sp_AddProductStock` atomically adds the given
quantity to the stock of the referenced product for every quantity,
positive or not, with no ValidationError; its only failure mode is the
stock non-negativity CHECK constraint, which aborts the statement and
leaves the stock unchanged. -/
theorem sp_AddProductStock_adds (db : DB) (pid : Nat) (qty : Int) (p : Product)
    (hnd : (db.products.map Product.product_id).Nodup)
    (hp : p ∈ db.products) (hid : p.product_id = pid) :
    (0 ≤ p.stock + qty →
      (sp_AddProductStock db pid qty).isOk = true ∧
      lookupStock (sp_AddProductStockState db pid qty) pid = some (p.stock + qty) ∧
      (∀ q ∈ db.products, q.product_id ≠ pid →
        q ∈ (sp_AddProductStockState db pid qty).products) ∧
      (sp_AddProductStockState db pid qty).orders = db.orders ∧
      (sp_AddProductStockState db pid qty).order_items = db.order_items) ∧
    (p.stock + qty < 0 →
      sp_AddProductStock db pid qty =
        Except.error (DBError.checkViolation "products_stock_check") ∧
      sp_AddProductStockState db pid qty = db) := by
  subst hid
  constructor
  · intro hge
    have hchk : db.products.any
        (fun q => q.product_id == p.product_id && decide (q.stock + qty < 0)) = false := by
      rw [List.any_eq_false]
      intro q hq
      simp only [Bool.and_eq_true, beq_iff_eq, decide_eq_true_eq, not_and, not_lt]
      intro hqe
      have : q = p := nodup_key_inj hnd hq hp hqe
      subst this
      omega
    have hok : sp_AddProductStock db p.product_id qty = Except.ok
        { db with products := db.products.map (fun q =>
            if q.product_id = p.product_id then
              { q with stock := q.stock + qty } else q) } := by
      simp only [sp_AddProductStock]
      rw [if_neg (by rw [hchk]; simp)]
    have hst : sp_AddProductStockState db p.product_id qty =
        { db with products := db.products.map (fun q =>
            if q.product_id = p.product_id then
              { q with stock := q.stock + qty } else q) } := by
      rw [sp_AddProductStockState.eq_def, hok]
    refine ⟨by rw [hok]; rfl, ?_, ?_, by rw [hst], by rw [hst]⟩
    · rw [hst]
      have hkeep : ∀ q : Product,
          ((if q.product_id = p.product_id then
            { q with stock := q.stock + qty } else q) : Product).product_id
            = q.product_id := by
        intro q; by_cases h : q.product_id = p.product_id <;> simp [h]
      simp only [lookupStock]
      rw [find?_map_of_key _ hkeep, nodup_key_find? hnd hp]
      simp
    · intro q hq hqne
      rw [hst]
      refine List.mem_map.mpr ⟨q, hq, ?_⟩
      simp [hqne]
  · intro hlt
    have hchk : db.products.any
        (fun q => q.product_id == p.product_id && decide (q.stock + qty < 0)) = true := by
      rw [List.any_eq_true]
      exact ⟨p, hp, by simp [hlt]⟩
    have herr : sp_AddProductStock db p.product_id qty =
        Except.error (DBError.checkViolation "products_stock_check") := by
      simp only [sp_AddProductStock]
      rw [if_pos (by rw [hchk])]
    exact ⟨herr, by rw [sp_AddProductStockState.eq_def, herr]⟩

/-- Witness for `sp_AddProductStock_adds`: adding 30 units to product 1
(stock 10) succeeds and makes the stock exactly 40. -/
theorem sp_AddProductStock_adds_witness :
    (sp_AddProductStock exAddDB 1 30).isOk = true ∧
    lookupStock (sp_AddProductStockState exAddDB 1 30) 1 = some 40 := by
  have h := (sp_AddProductStock_adds exAddDB 1 30
    ⟨1, "Premium Rice", "Groceries", 90, 10, some 1⟩
    (by decide) (by decide) rfl).1 (by decide)
  exact ⟨h.1, h.2.1⟩

/-- Embedding of the stored procedure `sp_DeleteCustomer` as created by
`create_stored_procedures` (the variant installed by menu option 13, the
only one reachable from the dispatcher): the customer is deleted only
`IF NOT EXISTS (SELECT 1 FROM orders WHERE customer_id = p_customer_id)`;
when any order references the customer, whatever its status, the procedure
raises.  (The dead-code variant in `demonstrate_stored_procedures` filters
on an `order_status` column that `create_tables` never defines.)  The
`ON DELETE CASCADE` of orders and order items is part of the delete,
although under the guard no order can reference the deleted customer. -/
def sp_DeleteCustomer (db : DB) (cid : Nat) : Except DBError DB :=
  if db.orders.any (fun o => o.customer_id == some cid) then
    Except.error (DBError.conflict
      "Customer cannot be deleted because they have existing orders.")
  else
    let deadOrders := db.orders.filter (fun o => o.customer_id == some cid)
    Except.ok { db with
      customers := db.customers.filter (fun c => c.customer_id != cid),
      orders := db.orders.filter (fun o => o.customer_id != some cid),
      order_items := db.order_items.filter (fun oi =>
        deadOrders.all (fun o => oi.order_id != some o.order_id)) }

/-- Example database for the DeleteCustomer counterexample: customer 7 has
exactly one order and that order is completed. -/
def exCustDB : DB :=
  { stores := [], employees := [], products := [], order_items := [],
    customers := [⟨7, "Rekha Pillai", "rekha@example.com", "9123456789", "Chennai"⟩],
    orders := [⟨1, some 7, some 1, ⟨2023, 4, 1⟩, 450, "completed"⟩],
    employee_audit := [], next_audit_id := 1, clock := 0 }

/-- Counterexample to claim C6: every order of customer 7 is in the
completed state, so by the claim the deletion should proceed; the source
procedure nevertheless blocks on the mere existence of a referencing order
and raises its conflict error, deleting nothing. -/
theorem sp_DeleteCustomer_blocks_completed :
    exCustDB.orders.all (fun o => o.order_status == "completed") = true ∧
    sp_DeleteCustomer exCustDB 7 =
      Except.error (DBError.conflict
        "Customer cannot be deleted because they have existing orders.") := by
  constructor
  · rfl
  · rfl

/-- Claim C6 (amended): `sp_DeleteCustomer` fails with its conflict error
and deletes nothing whenever ANY order references the customer, regardless
of order status or completion; only a customer with no referencing orders
at all is deleted. -/
theorem sp_DeleteCustomer_spec (db : DB) (cid : Nat) :
    ((∃ o ∈ db.orders, o.customer_id = some cid) →
      sp_DeleteCustomer db cid = Except.error (DBError.conflict
        "Customer cannot be deleted because they have existing orders.")) ∧
    ((∀ o ∈ db.orders, o.customer_id ≠ some cid) →
      sp_DeleteCustomer db cid = Except.ok { db with
        customers := db.customers.filter (fun c => c.customer_id != cid) }) := by
  constructor
  · intro ⟨o, ho, hoc⟩
    have : db.orders.any (fun o => o.customer_id == some cid) = true := by
      rw [List.any_eq_true]
      exact ⟨o, ho, by simp [hoc]⟩
    simp only [sp_DeleteCustomer]
    rw [if_pos (by rw [this])]
  · intro hno
    have hany : db.orders.any (fun o => o.customer_id == some cid) = false := by
      rw [List.any_eq_false]
      intro o ho
      simpa using hno o ho
    have hdead : db.orders.filter (fun o => o.customer_id == some cid) = [] := by
      rw [List.filter_eq_nil_iff]
      intro o ho
      simpa using hno o ho
    have hords : db.orders.filter (fun o => o.customer_id != some cid) = db.orders := by
      rw [List.filter_eq_self]
      intro o ho
      simpa using hno o ho
    simp only [sp_DeleteCustomer]
    rw [if_neg (by rw [hany]; simp)]
    rw [hdead, hords]
    simp

/-- Example database where customer 7 has no orders at all. -/
def exDelOkDB : DB :=
  { stores := [], employees := [], products := [], order_items := [],
    customers := [⟨7, "Rekha Pillai", "rekha@example.com", "9123456789", "Chennai"⟩],
    orders := [], employee_audit := [], next_audit_id := 1, clock := 0 }

/-- Witness for `sp_DeleteCustomer_spec`: a customer with no referencing
orders is deleted. -/
theorem sp_DeleteCustomer_spec_witness :
    sp_DeleteCustomer exDelOkDB 7 = Except.ok { exDelOkDB with
      customers := exDelOkDB.customers.filter (fun c => c.customer_id != 7) } :=
  (sp_DeleteCustomer_spec exDelOkDB 7).2 (by decide)

/-- Embedding of the stored procedure `sp_UpdateCustomer` as created by
`create_stored_procedures`: `UPDATE customers SET name, email, phone, city
WHERE customer_id = p_customer_id`, subject to the UNIQUE constraints on
email and phone.  No existence check is performed: an update naming an
absent customer updates zero rows and succeeds. -/
def sp_UpdateCustomer (db : DB) (cid : Nat) (nm em ph ci : String) :
    Except DBError DB :=
  let cs := db.customers.map (fun c =>
    if c.customer_id = cid then
      { c with name := nm, email := em, phone := ph, city := ci } else c)
  if (cs.map Customer.email).Nodup ∧ (cs.map Customer.phone).Nodup then
    Except.ok { db with customers := cs }
  else
    Except.error (DBError.uniqueViolation "customers_email_phone_key")

/-- Visible state after `sp_UpdateCustomer` (rollback on error). -/
def sp_UpdateCustomerState (db : DB) (cid : Nat) (nm em ph ci : String) : DB :=
  match sp_UpdateCustomer db cid nm em ph ci with
  | Except.ok db2 => db2
  | Except.error _ => db

/-- Example database for the UpdateCustomer counterexample: the single
customer has identifier 1, so customer 99 does not exist. -/
def exUpdDB : DB :=
  { stores := [], employees := [], products := [], order_items := [],
    customers := [⟨1, "Rekha Pillai", "rekha@example.com", "9123456789", "Chennai"⟩],
    orders := [], employee_audit := [], next_audit_id := 1, clock := 0 }

/-- Counterexample to claim C7: no customer 99 exists in `exUpdDB`, yet
`sp_UpdateCustomer` does not fail with a NotFoundError: it succeeds as a
zero-row no-op, leaving the database unchanged. -/
theorem sp_UpdateCustomer_no_notfound :
    exUpdDB.customers.all (fun c => c.customer_id != 99) = true ∧
    sp_UpdateCustomer exUpdDB 99 "X" "x@example.com" "0001112223" "Delhi" =
      Except.ok exUpdDB := by
  constructor
  · rfl
  · rfl

/-- Claim C7 (amended): when the named customer exists (and the updated
table still satisfies the email and phone uniqueness constraints),
`sp_UpdateCustomer` overwrites exactly that row with the given mutable
fields and touches nothing else; when no such customer exists the
procedure does not raise a NotFoundError: it succeeds leaving the database
unchanged. -/
theorem sp_UpdateCustomer_spec (db : DB) (cid : Nat) (nm em ph ci : String) :
    ((db.customers.map Customer.email).Nodup →
      (db.customers.map Customer.phone).Nodup →
      (∀ c ∈ db.customers, c.customer_id ≠ cid) →
      sp_UpdateCustomer db cid nm em ph ci = Except.ok db) ∧
    (∀ C, C ∈ db.customers → C.customer_id = cid →
      ((db.customers.map (fun c =>
        if c.customer_id = cid then
          { c with name := nm, email := em, phone := ph, city := ci }
        else c)).map Customer.email).Nodup →
      ((db.customers.map (fun c =>
        if c.customer_id = cid then
          { c with name := nm, email := em, phone := ph, city := ci }
        else c)).map Customer.phone).Nodup →
      (sp_UpdateCustomer db cid nm em ph ci).isOk = true ∧
      (⟨cid, nm, em, ph, ci⟩ : Customer) ∈
        (sp_UpdateCustomerState db cid nm em ph ci).customers ∧
      (∀ c ∈ db.customers, c.customer_id ≠ cid →
        c ∈ (sp_UpdateCustomerState db cid nm em ph ci).customers) ∧
      (∀ c ∈ (sp_UpdateCustomerState db cid nm em ph ci).customers,
        c.customer_id ≠ cid → c ∈ db.customers) ∧
      (sp_UpdateCustomerState db cid nm em ph ci).customers.length =
        db.customers.length ∧
      (sp_UpdateCustomerState db cid nm em ph ci).orders = db.orders) := by
  constructor
  · intro hu1 hu2 habs
    have hmap : db.customers.map (fun c =>
        if c.customer_id = cid then
          { c with name := nm, email := em, phone := ph, city := ci }
        else c) = db.customers :=
      map_eq_self_of (fun c hc => by simp [habs c hc])
    simp only [sp_UpdateCustomer, hmap]
    rw [if_pos ⟨hu1, hu2⟩]
  · intro C hC hCid hu1 hu2
    have hok : sp_UpdateCustomer db cid nm em ph ci = Except.ok
        { db with customers := db.customers.map (fun c =>
          if c.customer_id = cid then
            { c with name := nm, email := em, phone := ph, city := ci }
          else c) } := by
      simp only [sp_UpdateCustomer]
      rw [if_pos ⟨hu1, hu2⟩]
    have hst : sp_UpdateCustomerState db cid nm em ph ci =
        { db with customers := db.customers.map (fun c =>
          if c.customer_id = cid then
            { c with name := nm, email := em, phone := ph, city := ci }
          else c) } := by
      rw [sp_UpdateCustomerState.eq_def, hok]
    refine ⟨by rw [hok]; rfl, ?_, ?_, ?_, by rw [hst]; simp, by rw [hst]⟩
    · rw [hst]
      refine List.mem_map.mpr ⟨C, hC, ?_⟩
      rw [if_pos hCid]
      rw [show ({ C with name := nm, email := em, phone := ph, city := ci } : Customer)
        = ⟨C.customer_id, nm, em, ph, ci⟩ from rfl, hCid]
    · intro c hc hcne
      rw [hst]
      refine List.mem_map.mpr ⟨c, hc, ?_⟩
      rw [if_neg hcne]
    · intro c hc hcne
      rw [hst] at hc
      obtain ⟨c1, hc1, hceq⟩ := List.mem_map.mp hc
      by_cases h : c1.customer_id = cid
      · exfalso
        apply hcne
        rw [← hceq, if_pos h]
        exact h
      · rw [← hceq, if_neg h]
        exact hc1

/-- Witness for `sp_UpdateCustomer_spec`: overwriting customer 1 of
`exUpdDB` succeeds and the row now carries the new field values. -/
theorem sp_UpdateCustomer_spec_witness :
    (sp_UpdateCustomer exUpdDB 1 "Priya S. Verma" "priya.verma@example.com"
      "9876543210" "Mumbai").isOk = true ∧
    (⟨1, "Priya S. Verma", "priya.verma@example.com", "9876543210", "Mumbai"⟩ : Customer) ∈
      (sp_UpdateCustomerState exUpdDB 1 "Priya S. Verma" "priya.verma@example.com"
        "9876543210" "Mumbai").customers := by
  have h := (sp_UpdateCustomer_spec exUpdDB 1 "Priya S. Verma"
    "priya.verma@example.com" "9876543210" "Mumbai").2
    ⟨1, "Rekha Pillai", "rekha@example.com", "9123456789", "Chennai"⟩
    (by decide) rfl (by decide) (by decide)
  exact ⟨h.1, h.2.1⟩

/-- Lexicographic byte comparison of character lists, the order PostgreSQL
applies to `ORDER BY` on the ASCII month labels of `monthly_sales`. -/
def charListLe : List Char → List Char → Bool
  | [], _ => true
  | _ :: _, [] => false
  | a :: as, b :: bs =>
    if a.toNat < b.toNat then true
    else if b.toNat < a.toNat then false
    else charListLe as bs

/-- Text comparison used by the pivot engine: plain lexicographic order on
the month label. -/
def monthLE (a b : String) : Prop := charListLe a.data b.data = true

instance : DecidableRel monthLE := fun a b =>
  inferInstanceAs (Decidable (charListLe a.data b.data = true))

/-- Source ordering of the crosstab input query: `ORDER BY store_id,
month`. -/
def pivotRowLE (a b : Nat × String × Int) : Prop :=
  a.1 < b.1 ∨ (a.1 = b.1 ∧ monthLE a.2.1 b.2.1)

instance : DecidableRel pivotRowLE := fun a b =>
  inferInstanceAs (Decidable (a.1 < b.1 ∨ (a.1 = b.1 ∧ monthLE a.2.1 b.2.1)))

/-- The six facts `display_monthly_sales_pivot_crosstab` loads into
`monthly_sales` (the function deletes every existing row first, so the
table holds exactly these). -/
def monthly_sales_data : List (Nat × String × Int) :=
  [(1, "Jan", 5000), (1, "Feb", 7000), (1, "Mar", 8000),
   (2, "Jan", 6000), (2, "Feb", 7500), (2, "Mar", 9000)]

/-- Result of `SELECT store_id, month, total_sales FROM monthly_sales ORDER
BY store_id, month`. -/
def sortedMonthlySales : List (Nat × String × Int) :=
  List.insertionSort pivotRowLE monthly_sales_data

/-- Result of `SELECT DISTINCT month FROM monthly_sales ORDER BY month`:
the distinct month labels in lexicographic text order. -/
def pivotCategories : List String :=
  List.insertionSort monthLE (monthly_sales_data.map (fun r => r.2.1)).dedup

/-- Embedding of the `crosstab(source, category)` table function: one
output row per distinct `store_id` of the ordered source (in row order);
the value columns correspond POSITIONALLY to the categories in
category-query order, each filled from the first source row of the group
carrying that month label, NULL when no row matches.  The `AS
pivot_table (store_id, Jan, Feb, Mar)` clause of the source merely names
the positions. -/
def crosstab (rows : List (Nat × String × Int)) (cats : List String) :
    List (Nat × List (Option Int)) :=
  ((rows.map (fun r => r.1)).dedup).map (fun k =>
    (k, cats.map (fun c =>
      ((rows.filter (fun r => r.1 == k && r.2.1 == c)).head?).map (fun r => r.2.2))))

/-- The pivot rows fetched and printed by
`display_monthly_sales_pivot_crosstab`, unpacked by the Python code as
`(store_id, jan_sales, feb_sales, mar_sales)` under the printed header
`Store ID | Jan | Feb | Mar`. -/
def display_monthly_sales_pivot_crosstab : List (Nat × List (Option Int)) :=
  crosstab sortedMonthlySales pivotCategories

/-- Claim C4, evaluated on the code: the category query sorts the month
labels lexicographically, producing [Feb, Jan, Mar], and crosstab binds
them positionally to the declared columns (Jan, Feb, Mar), so the column
declared and printed as Jan carries the February amount.  The engine
yields the rows (1, 7000, 5000, 8000) and (2, 7500, 6000, 9000) - not the
claimed (1, 5000, 7000, 8000) and (2, 6000, 7500, 9000), and the cell in
the Jan position does not hold the (1, Jan) sum 5000. -/
theorem pivot_columns_misaligned :
    pivotCategories = ["Feb", "Jan", "Mar"] ∧
    display_monthly_sales_pivot_crosstab =
      [(1, [some 7000, some 5000, some 8000]),
       (2, [some 7500, some 6000, some 9000])] ∧
    display_monthly_sales_pivot_crosstab ≠
      [(1, [some 5000, some 7000, some 8000]),
       (2, [some 6000, some 7500, some 9000])] := by
  refine ⟨by decide, by decide, by decide⟩

/-- One store's slice of the sales-report join for a given year and month:
one row `(store name, quantity * unit price)` per order item attached to
an order of that store placed in the window. -/
def salesChunk (db : DB) (y m : Nat) (s : Store) : List (String × Int) :=
  (db.orders.filter (fun o =>
    o.store_id == some s.store_id &&
    (o.order_date.year == y && o.order_date.month == m))).flatMap
    (fun o => (db.order_items.filter (fun oi => oi.order_id == some o.order_id)).map
      (fun oi => (s.name, oi.price * oi.quantity)))

/-- All rows of the report join `stores JOIN orders JOIN order_items`
filtered to the window, as produced by `sp_GenerateSalesReport` in
`create_stored_procedures` before grouping. -/
def salesJoinRows (db : DB) (y m : Nat) : List (String × Int) :=
  db.stores.flatMap (salesChunk db y m)

/-- Revenue of one store in the window: the sum of `quantity * unit price`
over its matching order items. -/
def storeRevenue (db : DB) (y m : Nat) (s : Store) : Int :=
  ((salesChunk db y m s).map (fun r => r.2)).sum

/-- Descending-revenue order of the report (`ORDER BY monthly_revenue
DESC`). -/
def revDescLE (a b : String × Int) : Prop := b.2 ≤ a.2

instance : DecidableRel revDescLE := fun a b =>
  inferInstanceAs (Decidable (b.2 ≤ a.2))

instance : IsTotal (String × Int) revDescLE :=
  ⟨fun a b => le_total b.2 a.2⟩

instance : IsTrans (String × Int) revDescLE :=
  ⟨fun _ _ _ h1 h2 => le_trans h2 h1⟩

/-- Embedding of `sp_GenerateSalesReport` as created by
`create_stored_procedures` (the variant installed by the menu): inner
joins of stores, orders and order items, filtered on
`EXTRACT(YEAR) = p_year AND EXTRACT(MONTH) = p_month`, grouped by store
name with `SUM(oi.price * oi.quantity)`, ordered by revenue descending. -/
def sp_GenerateSalesReport (db : DB) (y m : Nat) : List (String × Int) :=
  let rows := salesJoinRows db y m
  List.insertionSort revDescLE
    (((rows.map (fun r => r.1)).dedup).map (fun n =>
      (n, ((rows.filter (fun r => r.1 == n)).map (fun r => r.2)).sum)))

/-- Filtering a flat-map of key-tagged chunks for the key of a member
keeps exactly the chunk of that member, when keys are nodup. -/
theorem filter_fst_flatMap {α γ δ : Type} [BEq γ] [LawfulBEq γ]
    {l : List α} {key : α → γ} {f : α → List (γ × δ)} {x : α}
    (hall : ∀ a ∈ l, ∀ r ∈ f a, r.1 = key a)
    (hnd : (l.map key).Nodup) (hx : x ∈ l) :
    (l.flatMap f).filter (fun r => r.1 == key x) = f x := by
  induction l with
  | nil => cases hx
  | cons y ys ih =>
    rw [List.map_cons, List.nodup_cons] at hnd
    rw [List.flatMap_cons, List.filter_append]
    rcases List.mem_cons.mp hx with rfl | hx2
    · have h1 : (f x).filter (fun r => r.1 == key x) = f x := by
        rw [List.filter_eq_self]
        intro r hr
        simp [hall x (List.mem_cons_self x ys) r hr]
      have h2 : (ys.flatMap f).filter (fun r => r.1 == key x) = [] := by
        rw [List.filter_eq_nil_iff]
        intro r hr
        obtain ⟨a, ha, hra⟩ := List.mem_flatMap.mp hr
        have hk : r.1 = key a := hall a (List.mem_cons_of_mem x ha) r hra
        simp only [beq_iff_eq, hk]
        intro hkk
        exact hnd.1 (hkk ▸ List.mem_map_of_mem key ha)
      rw [h1, h2, List.append_nil]
    · have h1 : (f y).filter (fun r => r.1 == key x) = [] := by
        rw [List.filter_eq_nil_iff]
        intro r hr
        have hk : r.1 = key y := hall y (List.mem_cons_self y ys) r hr
        simp only [beq_iff_eq, hk]
        intro hkk
        exact hnd.1 (hkk.symm ▸ List.mem_map_of_mem key hx2)
      rw [h1, List.nil_append]
      exact ih (fun a ha => hall a (List.mem_cons_of_mem y ha)) hnd.2 hx2

/-- Claim C8: every row of the sales report carries, for its store, the
sum of quantity times stored unit price over that store's order items in
the year-month window; a store appears in the report exactly when the
window join produces at least one row for it; and the report is ordered by
descending revenue. -/
theorem sales_report_correct (db : DB) (y m : Nat)
    (hnd : (db.stores.map Store.name).Nodup) :
    (∀ s ∈ db.stores, ∀ r, (s.name, r) ∈ sp_GenerateSalesReport db y m →
        r = storeRevenue db y m s) ∧
    (∀ s ∈ db.stores,
      ((s.name, storeRevenue db y m s) ∈ sp_GenerateSalesReport db y m ↔
        ∃ row ∈ salesJoinRows db y m, row.1 = s.name)) ∧
    (sp_GenerateSalesReport db y m).Pairwise (fun a b => b.2 ≤ a.2) := by
  have hall : ∀ s ∈ db.stores, ∀ r ∈ salesChunk db y m s, r.1 = s.name := by
    intro s _ r hr
    obtain ⟨o, _, hro⟩ := List.mem_flatMap.mp hr
    obtain ⟨oi, _, hroi⟩ := List.mem_map.mp hro
    rw [← hroi]
  have hchunk : ∀ s ∈ db.stores,
      (salesJoinRows db y m).filter (fun r => r.1 == s.name) = salesChunk db y m s := by
    intro s hs
    exact filter_fst_flatMap hall hnd hs
  have hmem : ∀ z, z ∈ sp_GenerateSalesReport db y m ↔
      z ∈ ((salesJoinRows db y m).map (fun r => r.1)).dedup.map (fun n =>
        (n, (((salesJoinRows db y m).filter (fun r => r.1 == n)).map (fun r => r.2)).sum)) := by
    intro z
    exact (List.perm_insertionSort revDescLE _).mem_iff
  refine ⟨?_, ?_, ?_⟩
  · intro s hs r hr
    rw [hmem] at hr
    obtain ⟨n, _, heq⟩ := List.mem_map.mp hr
    have hn : n = s.name := congrArg Prod.fst heq
    have hr2 := congrArg Prod.snd heq
    simp only at hr2
    rw [← hr2, hn, hchunk s hs, storeRevenue]
  · intro s hs
    constructor
    · intro hr
      rw [hmem] at hr
      obtain ⟨n, hnd2, heq⟩ := List.mem_map.mp hr
      have hn : n = s.name := congrArg Prod.fst heq
      rw [hn] at hnd2
      have : s.name ∈ (salesJoinRows db y m).map (fun r => r.1) :=
        List.mem_dedup.mp hnd2
      obtain ⟨row, hrow, hfst⟩ := List.mem_map.mp this
      exact ⟨row, hrow, hfst⟩
    · intro ⟨row, hrow, hfst⟩
      rw [hmem]
      have h1 : s.name ∈ (salesJoinRows db y m).map (fun r => r.1) :=
        List.mem_map.mpr ⟨row, hrow, hfst⟩
      have h2 := List.mem_dedup.mpr h1
      have h3 : (s.name,
          (((salesJoinRows db y m).filter (fun r => r.1 == s.name)).map (fun r => r.2)).sum) ∈
          ((salesJoinRows db y m).map (fun r => r.1)).dedup.map (fun n =>
            (n, (((salesJoinRows db y m).filter (fun r => r.1 == n)).map (fun r => r.2)).sum)) :=
        List.mem_map.mpr ⟨s.name, h2, rfl⟩
      rw [hchunk s hs] at h3
      exact h3
  · exact List.sorted_insertionSort revDescLE _

/-- Example database for the sales-report witness: store 1 sells 2 x 900
and store 2 sells 1 x 500 in January 2024; a December 2023 item is outside
the window. -/
def exRepDB : DB :=
  { stores := [⟨1, "Store A", "Chennai", none⟩, ⟨2, "Store B", "Mumbai", none⟩],
    employees := [], customers := [],
    products := [⟨1, "Premium Rice", "Groceries", 90, 10, some 1⟩],
    orders := [⟨1, some 1, some 1, ⟨2024, 1, 5⟩, 1800, "completed"⟩,
               ⟨2, some 1, some 2, ⟨2024, 1, 6⟩, 500, "completed"⟩,
               ⟨3, some 1, some 1, ⟨2023, 12, 1⟩, 700, "completed"⟩],
    order_items := [⟨1, some 1, some 1, 2, 900⟩,
                    ⟨2, some 2, some 1, 1, 500⟩,
                    ⟨3, some 3, some 1, 7, 100⟩],
    employee_audit := [], next_audit_id := 1, clock := 0 }

/-- Witness for `sales_report_correct`: in January 2024 store 1 appears
with revenue 1800 = 2 x 900 and the report is sorted by descending
revenue. -/
theorem sales_report_correct_witness :
    ("Store A", (1800 : Int)) ∈ sp_GenerateSalesReport exRepDB 2024 1 ∧
    (sp_GenerateSalesReport exRepDB 2024 1).Pairwise
      (fun a b => b.2 ≤ a.2) := by
  have h := sales_report_correct exRepDB 2024 1 (by decide)
  refine ⟨?_, h.2.2⟩
  exact ((h.2.1 ⟨1, "Store A", "Chennai", none⟩ (by decide)).mpr (by decide))

/-- Catalog state for the schema bootstrap: the created tables, indexes
and views, each with its definition payload (its column list). -/
structure SchemaState where
  tables : List (String × List String)
  indexes : List (String × List String)
  views : List (String × List String)
deriving DecidableEq

/-- Embedding of `CREATE TABLE [IF NOT EXISTS] n`: creating an existing
name is an error unless the guard is present, in which case it is a
no-op; otherwise the table is recorded. -/
def createTable (guard : Bool) (s : SchemaState) (n : String)
    (cols : List String) : Except String SchemaState :=
  if (s.tables.map Prod.fst).contains n then
    if guard then Except.ok s
    else Except.error ("relation already exists: " ++ n)
  else Except.ok { s with tables := s.tables ++ [(n, cols)] }

/-- Embedding of `CREATE INDEX [IF NOT EXISTS] n`. -/
def createIndex (guard : Bool) (s : SchemaState) (n : String)
    (cols : List String) : Except String SchemaState :=
  if (s.indexes.map Prod.fst).contains n then
    if guard then Except.ok s
    else Except.error ("relation already exists: " ++ n)
  else Except.ok { s with indexes := s.indexes ++ [(n, cols)] }

/-- Embedding of `CREATE OR REPLACE VIEW n`: an existing view of the name
has its definition replaced in place, a new name is appended; the
statement never errors. -/
def replaceView (s : SchemaState) (n : String) (cols : List String) :
    SchemaState :=
  if (s.views.map Prod.fst).contains n then
    { s with views := s.views.map (fun v => if v.1 = n then (n, cols) else v) }
  else { s with views := s.views ++ [(n, cols)] }

/-- The eight tables of `create_tables` with their column lists. -/
def tableDefs : List (String × List String) :=
  [("stores", ["store_id", "name", "location", "manager_id"]),
   ("employees", ["employee_id", "name", "role", "store_id", "salary", "manager_id"]),
   ("customers", ["customer_id", "name", "email", "phone", "city"]),
   ("suppliers", ["supplier_id", "name", "contact_person", "phone", "city"]),
   ("products", ["product_id", "name", "category", "price", "stock", "supplier_id"]),
   ("orders", ["order_id", "customer_id", "store_id", "order_date", "total_amount"]),
   ("order_items", ["order_item_id", "order_id", "product_id", "quantity", "price"]),
   ("payments", ["payment_id", "order_id", "amount", "payment_method", "payment_date"])]

/-- The two indexes of `create_indexes`. -/
def indexDefs : List (String × List String) :=
  [("idx_product_name", ["name"]),
   ("idx_customer_order_date", ["customer_id", "order_date"])]

/-- The two views of `create_views`. -/
def viewDefs : List (String × List String) :=
  [("top_selling_products", ["product_id", "product_name", "total_quantity_sold"]),
   ("store_revenue", ["store_id", "store_name", "total_revenue"])]

/-- Embedding of `create_tables`: the eight guarded CREATE TABLE
statements in source order. -/
def create_tables (s : SchemaState) : Except String SchemaState :=
  tableDefs.foldlM (fun st d => createTable true st d.1 d.2) s

/-- Embedding of `create_indexes`: the two guarded CREATE INDEX
statements. -/
def create_indexes (s : SchemaState) : Except String SchemaState :=
  indexDefs.foldlM (fun st d => createIndex true st d.1 d.2) s

/-- Embedding of `create_views`: the two CREATE OR REPLACE VIEW
statements; never fails. -/
def create_views (s : SchemaState) : Except String SchemaState :=
  Except.ok (viewDefs.foldl (fun st d => replaceView st d.1 d.2) s)

/-- The schema bootstrap: tables, then indexes, then views. -/
def schemaBootstrap (s : SchemaState) : Except String SchemaState :=
  match create_tables s with
  | Except.error e => Except.error e
  | Except.ok s1 =>
    match create_indexes s1 with
    | Except.error e => Except.error e
    | Except.ok s2 => create_views s2

/-- Total version of the guarded CREATE TABLE. -/
def addTableIfAbsent (s : SchemaState) (n : String) (cols : List String) :
    SchemaState :=
  if (s.tables.map Prod.fst).contains n then s
  else { s with tables := s.tables ++ [(n, cols)] }

/-- Total version of the guarded CREATE INDEX. -/
def addIndexIfAbsent (s : SchemaState) (n : String) (cols : List String) :
    SchemaState :=
  if (s.indexes.map Prod.fst).contains n then s
  else { s with indexes := s.indexes ++ [(n, cols)] }

theorem createTable_true (s : SchemaState) (n : String) (cols : List String) :
    createTable true s n cols = Except.ok (addTableIfAbsent s n cols) := by
  rw [createTable, addTableIfAbsent]
  split_ifs with h1 h2 <;> first | rfl | exact absurd rfl h2

theorem createIndex_true (s : SchemaState) (n : String) (cols : List String) :
    createIndex true s n cols = Except.ok (addIndexIfAbsent s n cols) := by
  rw [createIndex, addIndexIfAbsent]
  split_ifs with h1 h2 <;> first | rfl | exact absurd rfl h2

theorem foldlM_of_ok {σ α : Type} (f : σ → α → Except String σ) (g : σ → α → σ)
    (h : ∀ st a, f st a = Except.ok (g st a)) (l : List α) (s : σ) :
    l.foldlM f s = Except.ok (l.foldl g s) := by
  induction l generalizing s with
  | nil => rfl
  | cons a as ih =>
    rw [List.foldlM_cons, h, List.foldl_cons]
    exact ih (g s a)

theorem create_tables_total (s : SchemaState) :
    create_tables s =
      Except.ok (tableDefs.foldl (fun st d => addTableIfAbsent st d.1 d.2) s) := by
  rw [create_tables]
  exact foldlM_of_ok (fun st d => createTable true st d.1 d.2)
    (fun st d => addTableIfAbsent st d.1 d.2)
    (fun st d => createTable_true st d.1 d.2) tableDefs s

theorem create_indexes_total (s : SchemaState) :
    create_indexes s =
      Except.ok (indexDefs.foldl (fun st d => addIndexIfAbsent st d.1 d.2) s) := by
  rw [create_indexes]
  exact foldlM_of_ok (fun st d => createIndex true st d.1 d.2)
    (fun st d => addIndexIfAbsent st d.1 d.2)
    (fun st d => createIndex_true st d.1 d.2) indexDefs s

/-- Tables are untouched by index creation and view replacement, and vice
versa; stated for the fold bodies used by the bootstrap. -/
theorem addIndexIfAbsent_tables (s : SchemaState) (n : String) (c : List String) :
    (addIndexIfAbsent s n c).tables = s.tables := by
  rw [addIndexIfAbsent]; split_ifs <;> rfl

theorem addIndexIfAbsent_views (s : SchemaState) (n : String) (c : List String) :
    (addIndexIfAbsent s n c).views = s.views := by
  rw [addIndexIfAbsent]; split_ifs <;> rfl

theorem replaceView_tables (s : SchemaState) (n : String) (c : List String) :
    (replaceView s n c).tables = s.tables := by
  rw [replaceView]; split_ifs <;> rfl

theorem replaceView_indexes (s : SchemaState) (n : String) (c : List String) :
    (replaceView s n c).indexes = s.indexes := by
  rw [replaceView]; split_ifs <;> rfl

theorem addTableIfAbsent_indexes (s : SchemaState) (n : String) (c : List String) :
    (addTableIfAbsent s n c).indexes = s.indexes := by
  rw [addTableIfAbsent]; split_ifs <;> rfl

theorem addTableIfAbsent_views (s : SchemaState) (n : String) (c : List String) :
    (addTableIfAbsent s n c).views = s.views := by
  rw [addTableIfAbsent]; split_ifs <;> rfl

/-- A guarded table creation leaves its own name present, and presence is
monotone along the fold. -/
theorem addTableIfAbsent_mem (s : SchemaState) (n : String) (c : List String) :
    n ∈ (addTableIfAbsent s n c).tables.map Prod.fst := by
  rw [addTableIfAbsent]
  split_ifs with h
  · simpa using h
  · simp

theorem addTableIfAbsent_mono (s : SchemaState) (n m : String) (c : List String)
    (h : m ∈ s.tables.map Prod.fst) :
    m ∈ (addTableIfAbsent s n c).tables.map Prod.fst := by
  rw [addTableIfAbsent]
  split_ifs
  · exact h
  · simp only [List.map_append]
    exact List.mem_append_left _ h

theorem addTableIfAbsent_of_mem (s : SchemaState) (n : String) (c : List String)
    (h : n ∈ s.tables.map Prod.fst) : addTableIfAbsent s n c = s := by
  rw [addTableIfAbsent, if_pos (by simpa using h)]

theorem addIndexIfAbsent_mem (s : SchemaState) (n : String) (c : List String) :
    n ∈ (addIndexIfAbsent s n c).indexes.map Prod.fst := by
  rw [addIndexIfAbsent]
  split_ifs with h
  · simpa using h
  · simp

theorem addIndexIfAbsent_mono (s : SchemaState) (n m : String) (c : List String)
    (h : m ∈ s.indexes.map Prod.fst) :
    m ∈ (addIndexIfAbsent s n c).indexes.map Prod.fst := by
  rw [addIndexIfAbsent]
  split_ifs
  · exact h
  · simp only [List.map_append]
    exact List.mem_append_left _ h

theorem addIndexIfAbsent_of_mem (s : SchemaState) (n : String) (c : List String)
    (h : n ∈ s.indexes.map Prod.fst) : addIndexIfAbsent s n c = s := by
  rw [addIndexIfAbsent, if_pos (by simpa using h)]

theorem addTableIfAbsent_nodup (s : SchemaState) (n : String) (c : List String)
    (h : (s.tables.map Prod.fst).Nodup) :
    ((addTableIfAbsent s n c).tables.map Prod.fst).Nodup := by
  rw [addTableIfAbsent]
  split_ifs with h1
  · exact h
  · simp only [List.map_append]
    rw [List.nodup_append]
    refine ⟨h, by simp, ?_⟩
    intro a ha hb
    simp only [List.map_cons, List.map_nil, List.mem_singleton] at hb
    subst hb
    exact h1 (by simpa using ha)

theorem addIndexIfAbsent_nodup (s : SchemaState) (n : String) (c : List String)
    (h : (s.indexes.map Prod.fst).Nodup) :
    ((addIndexIfAbsent s n c).indexes.map Prod.fst).Nodup := by
  rw [addIndexIfAbsent]
  split_ifs with h1
  · exact h
  · simp only [List.map_append]
    rw [List.nodup_append]
    refine ⟨h, by simp, ?_⟩
    intro a ha hb
    simp only [List.map_cons, List.map_nil, List.mem_singleton] at hb
    subst hb
    exact h1 (by simpa using ha)

theorem foldl_tables_mono (l : List (String × List String)) (s : SchemaState)
    (m : String) (h : m ∈ s.tables.map Prod.fst) :
    m ∈ (l.foldl (fun st d => addTableIfAbsent st d.1 d.2) s).tables.map Prod.fst := by
  induction l generalizing s with
  | nil => exact h
  | cons a as ih => exact ih _ (addTableIfAbsent_mono s a.1 m a.2 h)

theorem foldl_tables_mem (l : List (String × List String)) (s : SchemaState) :
    ∀ d ∈ l, d.1 ∈ (l.foldl (fun st d => addTableIfAbsent st d.1 d.2) s).tables.map Prod.fst := by
  induction l generalizing s with
  | nil => intro d hd; cases hd
  | cons a as ih =>
    intro d hd
    rw [List.foldl_cons]
    rcases List.mem_cons.mp hd with rfl | hd2
    · exact foldl_tables_mono as _ d.1 (addTableIfAbsent_mem s d.1 d.2)
    · exact ih _ d hd2

theorem foldl_tables_id (l : List (String × List String)) (s : SchemaState)
    (h : ∀ d ∈ l, d.1 ∈ s.tables.map Prod.fst) :
    l.foldl (fun st d => addTableIfAbsent st d.1 d.2) s = s := by
  induction l with
  | nil => rfl
  | cons a as ih =>
    rw [List.foldl_cons, addTableIfAbsent_of_mem s a.1 a.2 (h a (List.mem_cons_self a as))]
    exact ih (fun d hd => h d (List.mem_cons_of_mem a hd))

theorem foldl_tables_nodup (l : List (String × List String)) (s : SchemaState)
    (h : (s.tables.map Prod.fst).Nodup) :
    ((l.foldl (fun st d => addTableIfAbsent st d.1 d.2) s).tables.map Prod.fst).Nodup := by
  induction l generalizing s with
  | nil => exact h
  | cons a as ih => exact ih _ (addTableIfAbsent_nodup s a.1 a.2 h)

theorem foldl_tables_indexes (l : List (String × List String)) (s : SchemaState) :
    (l.foldl (fun st d => addTableIfAbsent st d.1 d.2) s).indexes = s.indexes := by
  induction l generalizing s with
  | nil => rfl
  | cons a as ih => rw [List.foldl_cons, ih, addTableIfAbsent_indexes]

theorem foldl_tables_views (l : List (String × List String)) (s : SchemaState) :
    (l.foldl (fun st d => addTableIfAbsent st d.1 d.2) s).views = s.views := by
  induction l generalizing s with
  | nil => rfl
  | cons a as ih => rw [List.foldl_cons, ih, addTableIfAbsent_views]

theorem foldl_indexes_mono (l : List (String × List String)) (s : SchemaState)
    (m : String) (h : m ∈ s.indexes.map Prod.fst) :
    m ∈ (l.foldl (fun st d => addIndexIfAbsent st d.1 d.2) s).indexes.map Prod.fst := by
  induction l generalizing s with
  | nil => exact h
  | cons a as ih => exact ih _ (addIndexIfAbsent_mono s a.1 m a.2 h)

theorem foldl_indexes_mem (l : List (String × List String)) (s : SchemaState) :
    ∀ d ∈ l, d.1 ∈ (l.foldl (fun st d => addIndexIfAbsent st d.1 d.2) s).indexes.map Prod.fst := by
  induction l generalizing s with
  | nil => intro d hd; cases hd
  | cons a as ih =>
    intro d hd
    rw [List.foldl_cons]
    rcases List.mem_cons.mp hd with rfl | hd2
    · exact foldl_indexes_mono as _ d.1 (addIndexIfAbsent_mem s d.1 d.2)
    · exact ih _ d hd2

theorem foldl_indexes_id (l : List (String × List String)) (s : SchemaState)
    (h : ∀ d ∈ l, d.1 ∈ s.indexes.map Prod.fst) :
    l.foldl (fun st d => addIndexIfAbsent st d.1 d.2) s = s := by
  induction l with
  | nil => rfl
  | cons a as ih =>
    rw [List.foldl_cons, addIndexIfAbsent_of_mem s a.1 a.2 (h a (List.mem_cons_self a as))]
    exact ih (fun d hd => h d (List.mem_cons_of_mem a hd))

theorem foldl_indexes_nodup (l : List (String × List String)) (s : SchemaState)
    (h : (s.indexes.map Prod.fst).Nodup) :
    ((l.foldl (fun st d => addIndexIfAbsent st d.1 d.2) s).indexes.map Prod.fst).Nodup := by
  induction l generalizing s with
  | nil => exact h
  | cons a as ih => exact ih _ (addIndexIfAbsent_nodup s a.1 a.2 h)

theorem foldl_indexes_tables (l : List (String × List String)) (s : SchemaState) :
    (l.foldl (fun st d => addIndexIfAbsent st d.1 d.2) s).tables = s.tables := by
  induction l generalizing s with
  | nil => rfl
  | cons a as ih => rw [List.foldl_cons, ih, addIndexIfAbsent_tables]

theorem foldl_indexes_views (l : List (String × List String)) (s : SchemaState) :
    (l.foldl (fun st d => addIndexIfAbsent st d.1 d.2) s).views = s.views := by
  induction l generalizing s with
  | nil => rfl
  | cons a as ih => rw [List.foldl_cons, ih, addIndexIfAbsent_views]

theorem replaceView_mem (s : SchemaState) (n : String) (c : List String) :
    n ∈ (replaceView s n c).views.map Prod.fst := by
  rw [replaceView]
  split_ifs with h
  · obtain ⟨cx, hcx⟩ : ∃ cx, (n, cx) ∈ s.views := by simpa using h
    refine List.mem_map.mpr ⟨(n, c), List.mem_map.mpr ⟨(n, cx), hcx, by simp⟩, rfl⟩
  · simp

theorem replaceView_mono (s : SchemaState) (n m : String) (c : List String)
    (h : m ∈ s.views.map Prod.fst) :
    m ∈ (replaceView s n c).views.map Prod.fst := by
  rw [replaceView]
  split_ifs with h1
  · obtain ⟨v, hv, hvm⟩ := List.mem_map.mp h
    refine List.mem_map.mpr ⟨if v.1 = n then (n, c) else v, List.mem_map.mpr ⟨v, hv, rfl⟩, ?_⟩
    by_cases hc : v.1 = n
    · rw [if_pos hc]
      rw [← hvm, hc]
    · rw [if_neg hc]
      exact hvm
  · simp only [List.map_append]
    exact List.mem_append_left _ h

theorem replaceView_canon (s : SchemaState) (n : String) (c : List String) :
    ∀ v ∈ (replaceView s n c).views, v.1 = n → v = (n, c) := by
  rw [replaceView]
  split_ifs with h1
  · intro v hv hvn
    obtain ⟨v1, _, hveq⟩ := List.mem_map.mp hv
    by_cases hc : v1.1 = n
    · rw [← hveq, if_pos hc]
    · rw [← hveq, if_neg hc] at hvn ⊢
      exact absurd hvn hc
  · intro v hv hvn
    rcases List.mem_append.mp hv with hvl | hvr
    · exact absurd (hvn ▸ List.mem_map_of_mem Prod.fst hvl) (by simpa using h1)
    · simpa using hvr

theorem replaceView_pres_canon (s : SchemaState) (n m : String)
    (c cm : List String) (hmn : m ≠ n)
    (h : ∀ v ∈ s.views, v.1 = m → v = (m, cm)) :
    ∀ v ∈ (replaceView s n c).views, v.1 = m → v = (m, cm) := by
  rw [replaceView]
  split_ifs with h1
  · intro v hv hvm
    obtain ⟨v1, hv1, hveq⟩ := List.mem_map.mp hv
    by_cases hc : v1.1 = n
    · rw [← hveq, if_pos hc] at hvm
      exact absurd hvm.symm hmn
    · rw [← hveq, if_neg hc] at hvm ⊢
      exact h v1 hv1 hvm
  · intro v hv hvm
    rcases List.mem_append.mp hv with hvl | hvr
    · exact h v hvl hvm
    · rw [List.mem_singleton] at hvr
      rw [hvr] at hvm
      exact absurd hvm.symm hmn

theorem replaceView_of_canon (s : SchemaState) (n : String) (c : List String)
    (hmem : n ∈ s.views.map Prod.fst)
    (h : ∀ v ∈ s.views, v.1 = n → v = (n, c)) :
    replaceView s n c = s := by
  rw [replaceView, if_pos (by simpa using hmem)]
  rw [map_eq_self_of (fun v hv => ?_)]
  by_cases hc : v.1 = n
  · rw [if_pos hc, h v hv hc]
  · rw [if_neg hc]

theorem replaceView_nodup (s : SchemaState) (n : String) (c : List String)
    (h : (s.views.map Prod.fst).Nodup) :
    ((replaceView s n c).views.map Prod.fst).Nodup := by
  rw [replaceView]
  split_ifs with h1
  · have : (s.views.map (fun v => if v.1 = n then (n, c) else v)).map Prod.fst
        = s.views.map Prod.fst := by
      rw [List.map_map]
      refine List.map_congr_left (fun v _ => ?_)
      by_cases hc : v.1 = n
      · simp [hc]
      · simp [hc]
    rw [this]
    exact h
  · simp only [List.map_append]
    rw [List.nodup_append]
    refine ⟨h, by simp, ?_⟩
    intro a ha hb
    simp only [List.map_cons, List.map_nil, List.mem_singleton] at hb
    subst hb
    exact h1 (by simpa using ha)

/-- Schema state visible after the bootstrap (unchanged on failure). -/
def bootstrapState (s : SchemaState) : SchemaState :=
  match schemaBootstrap s with
  | Except.ok s1 => s1
  | Except.error _ => s

/-- Claim C9: the schema bootstrap never fails, a second invocation on the
resulting state succeeds and leaves the catalog identical to the state
after the first invocation, and no duplicate objects are created (the
object-name lists stay nodup). -/
theorem schema_bootstrap_idempotent (s : SchemaState)
    (hnt : (s.tables.map Prod.fst).Nodup)
    (hni : (s.indexes.map Prod.fst).Nodup)
    (hnv : (s.views.map Prod.fst).Nodup) :
    schemaBootstrap s = Except.ok (bootstrapState s) ∧
    schemaBootstrap (bootstrapState s) = Except.ok (bootstrapState s) ∧
    ((bootstrapState s).tables.map Prod.fst).Nodup ∧
    ((bootstrapState s).indexes.map Prod.fst).Nodup ∧
    ((bootstrapState s).views.map Prod.fst).Nodup := by
  have hAB : ("top_selling_products" : String) ≠ "store_revenue" := by decide
  set t := tableDefs.foldl (fun st d => addTableIfAbsent st d.1 d.2) s with ht
  set x0 := indexDefs.foldl (fun st d => addIndexIfAbsent st d.1 d.2) t with hx0
  set x1 := replaceView x0 "top_selling_products"
    ["product_id", "product_name", "total_quantity_sold"] with hx1
  set s1 := replaceView x1 "store_revenue"
    ["store_id", "store_name", "total_revenue"] with hs1
  have hcv : create_views x0 = Except.ok s1 := by
    simp only [create_views, viewDefs, List.foldl_cons, List.foldl_nil, hx1, hs1]
  have boot1 : schemaBootstrap s = Except.ok s1 := by
    simp only [schemaBootstrap, create_tables_total, create_indexes_total, ← ht, ← hx0, hcv]
  have hbs : bootstrapState s = s1 := by
    rw [bootstrapState.eq_def, boot1]
  -- tables of s1 are the tables of t, with every claimed table present
  have hs1t : s1.tables = t.tables := by
    rw [hs1, replaceView_tables, hx1, replaceView_tables, hx0, foldl_indexes_tables]
  have htpres : ∀ d ∈ tableDefs, d.1 ∈ s1.tables.map Prod.fst := by
    intro d hd
    rw [hs1t]
    exact foldl_tables_mem tableDefs s d hd
  -- indexes of s1 are the indexes of x0, with every claimed index present
  have hs1i : s1.indexes = x0.indexes := by
    rw [hs1, replaceView_indexes, hx1, replaceView_indexes]
  have hipres : ∀ d ∈ indexDefs, d.1 ∈ s1.indexes.map Prod.fst := by
    intro d hd
    rw [hs1i]
    exact foldl_indexes_mem indexDefs t d hd
  -- the two views of s1 are canonical
  have hcanonA : ∀ v ∈ s1.views, v.1 = "top_selling_products" →
      v = ("top_selling_products", ["product_id", "product_name", "total_quantity_sold"]) := by
    rw [hs1]
    exact replaceView_pres_canon x1 "store_revenue" "top_selling_products" _ _ hAB
      (by rw [hx1]; exact replaceView_canon x0 _ _)
  have hcanonB : ∀ v ∈ s1.views, v.1 = "store_revenue" →
      v = ("store_revenue", ["store_id", "store_name", "total_revenue"]) := by
    rw [hs1]
    exact replaceView_canon x1 _ _
  have hmemA : "top_selling_products" ∈ s1.views.map Prod.fst := by
    rw [hs1]
    exact replaceView_mono x1 _ _ _ (by rw [hx1]; exact replaceView_mem x0 _ _)
  have hmemB : "store_revenue" ∈ s1.views.map Prod.fst := by
    rw [hs1]
    exact replaceView_mem x1 _ _
  -- second run is the identity on s1
  have e1 : create_tables s1 = Except.ok s1 := by
    rw [create_tables_total, foldl_tables_id tableDefs s1 htpres]
  have e2 : create_indexes s1 = Except.ok s1 := by
    rw [create_indexes_total, foldl_indexes_id indexDefs s1 hipres]
  have rA : replaceView s1 "top_selling_products"
      ["product_id", "product_name", "total_quantity_sold"] = s1 :=
    replaceView_of_canon s1 _ _ hmemA hcanonA
  have e3 : create_views s1 = Except.ok s1 := by
    simp only [create_views, viewDefs, List.foldl_cons, List.foldl_nil]
    rw [rA, replaceView_of_canon s1 _ _ hmemB hcanonB]
  have boot2 : schemaBootstrap s1 = Except.ok s1 := by
    simp only [schemaBootstrap, e1, e2, e3]
  refine ⟨by rw [hbs]; exact boot1, by rw [hbs]; exact boot2, ?_, ?_, ?_⟩
  · rw [hbs, hs1t, ht]
    exact foldl_tables_nodup tableDefs s hnt
  · rw [hbs, hs1i, hx0]
    apply foldl_indexes_nodup indexDefs t
    rw [ht, foldl_tables_indexes]
    exact hni
  · rw [hbs, hs1]
    apply replaceView_nodup
    apply replaceView_nodup
    rw [hx0, foldl_indexes_views, ht, foldl_tables_views]
    exact hnv

/-- The empty catalog, the state of a fresh database. -/
def emptySchema : SchemaState := ⟨[], [], []⟩

/-- Witness for `schema_bootstrap_idempotent`: bootstrapping a fresh
catalog succeeds, and bootstrapping again returns the same catalog. -/
theorem schema_bootstrap_idempotent_witness :
    schemaBootstrap emptySchema = Except.ok (bootstrapState emptySchema) ∧
    schemaBootstrap (bootstrapState emptySchema) =
      Except.ok (bootstrapState emptySchema) := by
  have h := schema_bootstrap_idempotent emptySchema (by decide) (by decide) (by decide)
  exact ⟨h.1, h.2.1⟩

/-- One iteration level of the recursive CTE `EmployeeHierarchy` of
`display_employee_hierarchy`: level 0 is the anchor member (employees
whose `manager_id IS NULL`); level n+1 is the recursive member, joining
the employee table against level n on `e.manager_id = eh.employee_id` and
assigning level `eh.level + 1`. -/
def cteLevel (emps : List Employee) : Nat → List Employee
  | 0 => emps.filter (fun e => e.manager_id == none)
  | n + 1 => (cteLevel emps n).flatMap (fun m =>
      emps.filter (fun e => e.manager_id == some m.employee_id))

/-- All rows of the recursive CTE paired with their levels, unrolled to
depth `emps.length`; for an acyclic manager relation this captures every
row the CTE ever produces, since a longer reporting chain would have to
repeat an employee. -/
def hierarchyRows (emps : List Employee) : List (Employee × Nat) :=
  (List.range (emps.length + 1)).flatMap (fun n =>
    (cteLevel emps n).map (fun e => (e, n)))

/-- Output ordering of the hierarchy query: `ORDER BY level,
employee_id`. -/
def hierLE (a b : Employee × Nat) : Prop :=
  a.2 < b.2 ∨ (a.2 = b.2 ∧ a.1.employee_id ≤ b.1.employee_id)

instance : DecidableRel hierLE := fun a b =>
  inferInstanceAs (Decidable (a.2 < b.2 ∨ (a.2 = b.2 ∧ a.1.employee_id ≤ b.1.employee_id)))

instance : IsTotal (Employee × Nat) hierLE := ⟨by
  intro a b
  rcases Nat.lt_trichotomy a.2 b.2 with h | h | h
  · exact Or.inl (Or.inl h)
  · rcases Nat.le_total a.1.employee_id b.1.employee_id with h2 | h2
    · exact Or.inl (Or.inr ⟨h, h2⟩)
    · exact Or.inr (Or.inr ⟨h.symm, h2⟩)
  · exact Or.inr (Or.inl h)⟩

instance : IsTrans (Employee × Nat) hierLE := ⟨by
  intro a b c hab hbc
  rcases hab with h | ⟨h1, h2⟩ <;> rcases hbc with h' | ⟨h1', h2'⟩
  · exact Or.inl (lt_trans h h')
  · exact Or.inl (h1' ▸ h)
  · exact Or.inl (h1 ▸ h')
  · exact Or.inr ⟨h1.trans h1', le_trans h2 h2'⟩⟩

/-- Embedding of `display_employee_hierarchy`: the rows of the recursive
CTE ordered by level, then employee identifier. -/
def display_employee_hierarchy (emps : List Employee) : List (Employee × Nat) :=
  List.insertionSort hierLE (hierarchyRows emps)

/-- An employee is at depth n when a manager chain of length n links it to
a root, an employee with no manager; the depth is its distance from its
root. -/
inductive HasDepth (emps : List Employee) : Employee → Nat → Prop where
  | root (e : Employee) (he : e ∈ emps) (hm : e.manager_id = none) :
      HasDepth emps e 0
  | step (e m : Employee) (n : Nat) (he : e ∈ emps) (hm : m ∈ emps)
      (href : e.manager_id = some m.employee_id) (hd : HasDepth emps m n) :
      HasDepth emps e (n + 1)

/-- Acyclicity of the manager relation, witnessed by a rank function that
strictly decreases from an employee to its manager; for the finite
manager graph this is equivalent to having no cycle. -/
def ManagerAcyclic (emps : List Employee) : Prop :=
  ∃ rank : Nat → Nat, ∀ e ∈ emps, ∀ m ∈ emps,
    e.manager_id = some m.employee_id → rank m.employee_id < rank e.employee_id

theorem cteLevel_subset (emps : List Employee) :
    ∀ n, ∀ e ∈ cteLevel emps n, e ∈ emps := by
  intro n
  induction n with
  | zero =>
    intro e he
    exact List.mem_of_mem_filter he
  | succ k _ =>
    intro e he
    obtain ⟨m, _, hef⟩ := List.mem_flatMap.mp he
    exact List.mem_of_mem_filter hef

/-- A CTE row at level n is exactly an employee at depth n. -/
theorem mem_cteLevel (emps : List Employee) :
    ∀ n e, e ∈ cteLevel emps n ↔ HasDepth emps e n := by
  intro n
  induction n with
  | zero =>
    intro e
    constructor
    · intro he
      have h1 := List.mem_of_mem_filter he
      have h2 := List.of_mem_filter he
      exact HasDepth.root e h1 (by simpa using h2)
    · intro hd
      cases hd with
      | root e he hm => exact List.mem_filter.mpr ⟨he, by simp [hm]⟩
  | succ k ih =>
    intro e
    constructor
    · intro he
      obtain ⟨m, hmLev, hef⟩ := List.mem_flatMap.mp he
      have h1 := List.mem_of_mem_filter hef
      have h2 : e.manager_id = some m.employee_id := by
        simpa using List.of_mem_filter hef
      exact HasDepth.step e m k h1 (cteLevel_subset emps k m hmLev) h2 ((ih m).mp hmLev)
    · intro hd
      cases hd with
      | step e m n he hm href hd2 =>
        exact List.mem_flatMap.mpr ⟨m, (ih m).mpr hd2,
          List.mem_filter.mpr ⟨he, by simp [href]⟩⟩

/-- With nodup employee identifiers, an employee has at most one depth. -/
theorem depth_unique {emps : List Employee}
    (hnd : (emps.map Employee.employee_id).Nodup) {e : Employee} {n n' : Nat}
    (h1 : HasDepth emps e n) : HasDepth emps e n' → n = n' := by
  induction h1 generalizing n' with
  | root e he hm =>
    intro h2
    cases h2 with
    | root => rfl
    | step e2 m2 k2 he2 hm2 href2 hd2 =>
      rw [hm] at href2
      cases href2
  | step e m k he hm href hd ih =>
    intro h2
    cases h2 with
    | root e2 he2 hm2 =>
      rw [hm2] at href
      cases href
    | step e2 m2 k2 he2 hm2 href2 hd2 =>
      rw [href] at href2
      have hid : m.employee_id = m2.employee_id := Option.some.inj href2
      have hmm : m2 = m := nodup_key_inj hnd hm2 hm hid.symm
      subst hmm
      rw [ih hd2]

/-- Every depth derivation yields an explicit manager chain starting at
the employee: a list of successive managers ending at a root. -/
theorem depth_chain {emps : List Employee} {e : Employee} {n : Nat}
    (h : HasDepth emps e n) :
    ∃ l : List Employee, (e :: l).length = n + 1 ∧ (∀ x ∈ e :: l, x ∈ emps) ∧
      List.Chain (fun a b => a.manager_id = some b.employee_id) e l := by
  induction h with
  | root e he _ =>
    exact ⟨[], rfl, by intro x hx; simpa using (List.mem_singleton.mp hx) ▸ he,
      List.Chain.nil⟩
  | step e m k he hm href _ ih =>
    obtain ⟨lm, hlen, hmem, hch⟩ := ih
    refine ⟨m :: lm, by simpa using hlen, ?_, List.chain_cons.mpr ⟨href, hch⟩⟩
    intro x hx
    rcases List.mem_cons.mp hx with rfl | hx2
    · exact he
    · exact hmem x hx2

/-- Along a manager chain inside the employee table the rank of an
acyclicity witness strictly decreases. -/
theorem chain_rank {emps : List Employee} {rank : Nat → Nat}
    (hrank : ∀ e ∈ emps, ∀ m ∈ emps,
      e.manager_id = some m.employee_id → rank m.employee_id < rank e.employee_id) :
    ∀ (e : Employee) (l : List Employee), (∀ x ∈ e :: l, x ∈ emps) →
      List.Chain (fun a b => a.manager_id = some b.employee_id) e l →
      List.Chain (fun a b => rank b.employee_id < rank a.employee_id) e l := by
  intro e l
  induction l generalizing e with
  | nil => intro _ _; exact List.Chain.nil
  | cons b bs ih =>
    intro hmem hch
    rw [List.chain_cons] at hch ⊢
    refine ⟨hrank e (hmem e (List.mem_cons_self e (b :: bs))) b
      (hmem b (List.mem_cons_of_mem e (List.mem_cons_self b bs))) hch.1, ?_⟩
    exact ih b (fun x hx => hmem x (List.mem_cons_of_mem e hx)) hch.2

/-- Under an acyclic manager relation, a depth never exceeds the table
size: the chain to the root visits pairwise distinct employees. -/
theorem depth_lt_length {emps : List Employee} (hacyc : ManagerAcyclic emps)
    {e : Employee} {n : Nat} (h : HasDepth emps e n) : n < emps.length + 1 := by
  obtain ⟨rank, hrank⟩ := hacyc
  obtain ⟨l, hlen, hmem, hch⟩ := depth_chain h
  have hch2 := chain_rank hrank e l hmem hch
  haveI : IsTrans Employee (fun a b => rank b.employee_id < rank a.employee_id) :=
    ⟨fun _ _ _ h1 h2 => lt_trans h2 h1⟩
  have hpair : (e :: l).Pairwise (fun a b => rank b.employee_id < rank a.employee_id) :=
    List.chain_iff_pairwise.mp hch2
  have hnodup : (e :: l).Nodup := by
    refine hpair.imp ?_
    intro a b hab
    intro hEq
    rw [hEq] at hab
    exact lt_irrefl _ hab
  have hsub : (e :: l) ⊆ emps := fun x hx => hmem x hx
  have hle : (e :: l).length ≤ emps.length :=
    (hnodup.subperm hsub).length_le
  omega

theorem perm_count {α : Type} [BEq α] {l₁ l₂ : List α} (h : l₁.Perm l₂) (a : α) :
    l₁.count a = l₂.count a := by
  induction h with
  | nil => rfl
  | cons x _ ih => rw [List.count_cons, List.count_cons, ih]
  | swap x y l =>
    rw [List.count_cons, List.count_cons, List.count_cons, List.count_cons]
    omega
  | trans _ _ ih1 ih2 => rw [ih1, ih2]

theorem count_emps {emps : List Employee}
    (hnd : (emps.map Employee.employee_id).Nodup) {e : Employee} (he : e ∈ emps) :
    emps.count e = 1 := by
  have h1 : emps.Nodup := hnd.of_map
  have h2 := List.nodup_iff_count_le_one.mp h1 e
  have h3 : 0 < emps.count e := List.count_pos_iff_mem.mpr he
  omega

theorem sum_indicator_count {α : Type} [DecidableEq α] (M : α) (l : List α) :
    (l.map (fun m => if m = M then 1 else 0)).sum = l.count M := by
  induction l with
  | nil => rfl
  | cons a as ih =>
    rw [List.map_cons, List.sum_cons, ih, List.count_cons]
    by_cases h : a = M
    · simp only [h, if_pos rfl, beq_self_eq_true, if_true]
      omega
    · simp [h]

/-- With nodup identifiers an employee at depth n occurs exactly once in
CTE level n. -/
theorem count_cteLevel {emps : List Employee}
    (hnd : (emps.map Employee.employee_id).Nodup) {e : Employee} {n : Nat}
    (h : HasDepth emps e n) : (cteLevel emps n).count e = 1 := by
  induction h with
  | root e he hm =>
    simp only [cteLevel]
    rw [List.count_filter (by simp [hm])]
    exact count_emps hnd he
  | step e m k he hm href hd ih =>
    simp only [cteLevel]
    rw [List.count_flatMap]
    have hmap : (cteLevel emps k).map
        (List.count e ∘ fun mm => emps.filter (fun x => x.manager_id == some mm.employee_id))
        = (cteLevel emps k).map (fun mm => if mm = m then 1 else 0) := by
      refine List.map_congr_left (fun mm hmm => ?_)
      simp only [Function.comp]
      by_cases hid : mm.employee_id = m.employee_id
      · have hmm2 : mm = m := nodup_key_inj hnd (cteLevel_subset emps k mm hmm) hm hid
        subst hmm2
        rw [if_pos rfl]
        rw [List.count_filter (by simp [href])]
        exact count_emps hnd he
      · rw [if_neg (fun hEq => hid (congrArg Employee.employee_id hEq))]
        refine List.count_eq_zero.mpr ?_
        intro hcon
        have hpred := List.of_mem_filter hcon
        simp only [beq_iff_eq] at hpred
        rw [href] at hpred
        exact hid (Option.some.inj hpred).symm
    rw [hmap, sum_indicator_count]
    exact ih

theorem count_pair_map_eq (l : List Employee) (e : Employee) (n : Nat) :
    (l.map (fun x => (x, n))).count (e, n) = l.count e := by
  induction l with
  | nil => rfl
  | cons a as ih =>
    rw [List.map_cons, List.count_cons, List.count_cons, ih]
    by_cases ha : a = e
    · subst ha; simp
    · have h1 : (((a, n) : Employee × Nat) == (e, n)) = false := by
        rw [beq_eq_false_iff_ne]
        intro hEq
        exact ha (congrArg Prod.fst hEq)
      have h2 : (a == e) = false := by
        rw [beq_eq_false_iff_ne]; exact ha
      rw [h1, h2]

theorem count_pair_map_ne (l : List Employee) (e : Employee) {n k : Nat}
    (h : k ≠ n) : (l.map (fun x => (x, k))).count (e, n) = 0 := by
  refine List.count_eq_zero.mpr ?_
  intro hcon
  obtain ⟨x, _, hx⟩ := List.mem_map.mp hcon
  exact h (congrArg Prod.snd hx)

/-- An employee at depth n appears exactly once among the level-annotated
CTE rows. -/
theorem count_hierarchyRows {emps : List Employee}
    (hnd : (emps.map Employee.employee_id).Nodup) (hacyc : ManagerAcyclic emps)
    {e : Employee} {n : Nat} (h : HasDepth emps e n) :
    (hierarchyRows emps).count (e, n) = 1 := by
  rw [hierarchyRows, List.count_flatMap]
  have hmap : (List.range (emps.length + 1)).map
      (List.count (e, n) ∘ fun k => (cteLevel emps k).map (fun x => (x, k)))
      = (List.range (emps.length + 1)).map (fun k => if k = n then 1 else 0) := by
    refine List.map_congr_left (fun k _ => ?_)
    simp only [Function.comp]
    by_cases hk : k = n
    · subst hk
      rw [if_pos rfl, count_pair_map_eq, count_cteLevel hnd h]
    · rw [if_neg hk, count_pair_map_ne _ _ hk]
  rw [hmap, sum_indicator_count]
  have h1 : (List.range (emps.length + 1)).Nodup := List.nodup_range (emps.length + 1)
  have h2 := List.nodup_iff_count_le_one.mp h1 n
  have h3 : n ∈ List.range (emps.length + 1) :=
    List.mem_range.mpr (depth_lt_length hacyc h)
  have h4 : 0 < (List.range (emps.length + 1)).count n :=
    List.count_pos_iff_mem.mpr h3
  omega

theorem mem_hierarchyRows {emps : List Employee} (hacyc : ManagerAcyclic emps)
    (e : Employee) (n : Nat) :
    (e, n) ∈ hierarchyRows emps ↔ HasDepth emps e n := by
  rw [hierarchyRows]
  constructor
  · intro h
    obtain ⟨k, _, hk⟩ := List.mem_flatMap.mp h
    obtain ⟨x, hx, hxe⟩ := List.mem_map.mp hk
    obtain ⟨rfl, rfl⟩ : x = e ∧ k = n :=
      ⟨congrArg Prod.fst hxe, congrArg Prod.snd hxe⟩
    exact (mem_cteLevel emps _ _).mp hx
  · intro h
    refine List.mem_flatMap.mpr ⟨n, List.mem_range.mpr (depth_lt_length hacyc h), ?_⟩
    exact List.mem_map.mpr ⟨e, (mem_cteLevel emps n e).mpr h, rfl⟩

/-- Claim C3: for an acyclic manager relation, the hierarchy query emits a
row (e, n) exactly when employee e is at distance n from a root along its
manager chain - so an employee whose chain never reaches a root (a cycle
kept out by acyclicity, or a dangling manager reference) is never
emitted - each such employee is emitted exactly once, with a single level,
and the output is ordered by ascending level and, within a level, by
ascending employee identifier. -/
theorem hierarchy_resolution_correct (emps : List Employee)
    (hnd : (emps.map Employee.employee_id).Nodup)
    (hacyc : ManagerAcyclic emps) :
    (∀ e n, (e, n) ∈ display_employee_hierarchy emps ↔ HasDepth emps e n) ∧
    (∀ e n, HasDepth emps e n →
      (display_employee_hierarchy emps).count (e, n) = 1) ∧
    (∀ e n n', (e, n) ∈ display_employee_hierarchy emps →
      (e, n') ∈ display_employee_hierarchy emps → n = n') ∧
    (display_employee_hierarchy emps).Pairwise hierLE := by
  have hperm := List.perm_insertionSort hierLE (hierarchyRows emps)
  have hmem : ∀ e n, (e, n) ∈ display_employee_hierarchy emps ↔ HasDepth emps e n := by
    intro e n
    rw [display_employee_hierarchy]
    rw [hperm.mem_iff]
    exact mem_hierarchyRows hacyc e n
  refine ⟨hmem, ?_, ?_, ?_⟩
  · intro e n h
    rw [display_employee_hierarchy, perm_count hperm]
    exact count_hierarchyRows hnd hacyc h
  · intro e n n' h1 h2
    exact depth_unique hnd ((hmem e n).mp h1) ((hmem e n').mp h2)
  · exact List.sorted_insertionSort hierLE (hierarchyRows emps)

/-- Example employee set for the hierarchy witness: a manager, two
subordinates, a third-level clerk, and an employee whose manager reference
is dangling (so its chain never reaches a root). -/
def exHierEmps : List Employee :=
  [⟨201, "Anil Sharma", "Manager", some 1, 80000, none⟩,
   ⟨206, "Suman Reddy", "Cashier", some 1, 38000, some 201⟩,
   ⟨207, "Lata Joshi", "Cashier", some 2, 36000, some 201⟩,
   ⟨210, "Ajay Gupta", "Stock Clerk", some 5, 32000, some 206⟩,
   ⟨300, "Orphan Row", "Clerk", none, 1000, some 999⟩]

/-- Witness for `hierarchy_resolution_correct`: employee 206, managed by
root 201, is emitted exactly once at level 1. -/
theorem hierarchy_resolution_correct_witness :
    ((⟨206, "Suman Reddy", "Cashier", some 1, 38000, some 201⟩ : Employee), 1) ∈
      display_employee_hierarchy exHierEmps ∧
    (display_employee_hierarchy exHierEmps).count
      (⟨206, "Suman Reddy", "Cashier", some 1, 38000, some 201⟩, 1) = 1 := by
  have hd : HasDepth exHierEmps
      ⟨206, "Suman Reddy", "Cashier", some 1, 38000, some 201⟩ 1 :=
    HasDepth.step _ ⟨201, "Anil Sharma", "Manager", some 1, 80000, none⟩ 0
      (by decide) (by decide) rfl
      (HasDepth.root _ (by decide) rfl)
  have h := hierarchy_resolution_correct exHierEmps (by decide)
    ⟨fun i => i, by decide⟩
  exact ⟨(h.1 _ 1).mpr hd, h.2.1 _ 1 hd⟩

end Certainti
